import Mathlib

/-!
Verification development for the Bucardo-Docker replication controller.

The Go source is shallowly embedded: pure fragments become Lean functions,
the orchestrator's engine-mutating calls become explicit operation traces,
and the completion monitor's event loop becomes a step function on its
pending set.  Machine integers stay exact except inside SHA-1, where every
word is reduced modulo 2^32 as in the Go implementation.
-/

set_option maxRecDepth 1000000

namespace BucardoDocker

/-! ### Go string primitives -/

/-- Substring test on char lists: the needle occurs contiguously in the hay
(Go strings.Contains, with arguments in needle-first order here). -/
def listContainsSub (needle : List Char) : List Char → Bool
  | [] => needle.isEmpty
  | c :: t => needle.isPrefixOf (c :: t) || listContainsSub needle t

/-- Go strings.Contains. -/
def strContains (hay needle : String) : Bool :=
  listContainsSub needle.data hay.data

/-- Lexicographic comparison of char lists by code point; for UTF-8 encoded
strings this coincides with Go's byte-wise string order. -/
def charListLe : List Char → List Char → Bool
  | [], _ => true
  | _ :: _, [] => false
  | a :: as, b :: bs =>
    if a.toNat < b.toNat then true
    else if b.toNat < a.toNat then false
    else charListLe as bs

/-- Go string comparison a less-or-equal b. -/
def strLe (a b : String) : Bool :=
  charListLe a.data b.data

/-- Insert into a sorted list (helper for sortStrings). -/
def insertSorted (a : String) : List String → List String
  | [] => [a]
  | b :: t => if strLe a b then a :: b :: t else b :: insertSorted a t

/-- Go sort.Strings: ascending lexicographic order on strings.  Any correct
sort yields the same list (the sorted permutation is unique for a total
antisymmetric order), so insertion sort models Go's sort exactly. -/
def sortStrings : List String → List String
  | [] => []
  | a :: t => insertSorted a (sortStrings t)

/-- Go strings.Split with a one-character separator, on char lists. -/
def splitChars (sep : Char) : List Char → List (List Char)
  | [] => [[]]
  | c :: t =>
    let r := splitChars sep t
    if c = sep then [] :: r else (c :: r.headD []) :: r.tail

/-- Go strings.Split(s, ","). -/
def splitCommas (s : String) : List String :=
  (splitChars ',' s.data).map String.mk

/-- Go strings.TrimSpace (leading and trailing whitespace removed). -/
def goTrimSpace (s : String) : String :=
  String.mk (((s.data.dropWhile Char.isWhitespace).reverse.dropWhile Char.isWhitespace).reverse)

/-- Go strings.Join(_, ",") on char lists. -/
def joinCommaChars : List (List Char) → List Char
  | [] => []
  | [x] => x
  | x :: y :: t => x ++ ',' :: joinCommaChars (y :: t)

/-- Go strings.Join(l, ","). -/
def joinComma (l : List String) : String :=
  String.mk (joinCommaChars (l.map String.data))

/-! ### Domain model (internal/core/domain/config.go) -/

/-- domain.Database. -/
structure Database where
  id : Int
  dbname : String := ""
  host : String := ""
  user : String := ""
  pass : String := ""
  port : Option Int := none
deriving DecidableEq, Repr

/-- domain.Sync.  Optional JSON fields become Option / default-zero values,
matching Go's zero values for omitted fields. -/
structure Sync where
  name : String
  sources : List Int := []
  targets : List Int := []
  bidirectional : List Int := []
  herd : String := ""
  tables : String := ""
  onetimecopy : Int := 0
  strictChecking : Option Bool := none
  exitOnComplete : Option Bool := none
  exitOnCompleteTimeout : Option Int := none
  conflictStrategy : String := ""
deriving DecidableEq, Repr

/-- domain.BucardoConfig. -/
structure BucardoConfig where
  databases : List Database := []
  syncs : List Sync := []
  logLevel : String := ""
deriving DecidableEq, Repr

/-! ### Password resolution (orchestrator getDbPassword; the identical
PgpassManager.getDbPassword).  The process environment is a function from
variable names to values; Go's os.Getenv yields "" for unset variables, so
an unset variable and an empty one are indistinguishable here exactly as
they are in the source. -/

/-- getDbPassword from service.go / pgpass.go. -/
def getDbPassword (env : String → String) (db : Database) : Except String String :=
  if db.pass = "env" then
    let envVar := "BUCARDO_DB" ++ toString db.id
    let password := env envVar
    if password = "" then
      .error ("environment variable " ++ envVar ++ " not set for db id " ++ toString db.id)
    else
      .ok password
  else
    .ok db.pass

/-! ### Validation (Service.validateConfig).  Each constructor stands for one
distinct fmt.Errorf message of the source, carrying the same format
arguments. -/

/-- One validation error; constructors mirror the distinct error messages. -/
inductive ValidationError where
  | duplicateDbId (id : Int)
  | syncMissingName
  | duplicateSyncName (name : String)
  | bidirectionalTooFew (name : String)
  | bidirectionalUnknownDb (name : String) (id : Int)
  | staticStrategyForBidirectional (name : String) (strategy : String)
  | missingSources (name : String)
  | missingTargets (name : String)
  | missingTablesAndHerd (name : String)
  | invalidConflictStrategy (name : String) (strategy : String)
deriving DecidableEq, Repr

/-- The enumerated set of valid conflict strategies (validStrategies map). -/
def validStrategies : List String :=
  ["bucardo_source", "bucardo_target", "bucardo_skip",
   "bucardo_random", "bucardo_latest", "bucardo_abort"]

/-- Shape checks for one named sync (independent of previously seen names). -/
def syncShapeErrors (dbIds : List Int) (sync : Sync) : List ValidationError :=
  (if ¬ sync.bidirectional.isEmpty then
    (if sync.bidirectional.length < 2 then [.bidirectionalTooFew sync.name] else [])
    ++ (sync.bidirectional.filter (fun id => ¬ dbIds.contains id)).map
        (fun id => .bidirectionalUnknownDb sync.name id)
    ++ (if sync.conflictStrategy = "bucardo_source" ∨ sync.conflictStrategy = "bucardo_target"
        then [.staticStrategyForBidirectional sync.name sync.conflictStrategy] else [])
  else
    (if sync.sources.isEmpty then [.missingSources sync.name] else [])
    ++ (if sync.targets.isEmpty then [.missingTargets sync.name] else [])
    ++ (if sync.herd = "" ∧ sync.tables = "" then [.missingTablesAndHerd sync.name] else []))
  ++ (if sync.conflictStrategy ≠ "" ∧ ¬ validStrategies.contains sync.conflictStrategy
      then [.invalidConflictStrategy sync.name sync.conflictStrategy] else [])

/-- Errors contributed by one sync, given the accumulated seen names.  A sync
without a name yields only the missing-name error (the Go loop continues). -/
def syncStepErrors (dbIds : List Int) (seen : List String) (sync : Sync) : List ValidationError :=
  if sync.name = "" then [.syncMissingName]
  else
    (if seen.contains sync.name then [.duplicateSyncName sync.name] else [])
    ++ syncShapeErrors dbIds sync

/-- Seen-name accumulation: a nameless sync is skipped before registration. -/
def syncSeenUpdate (seen : List String) (sync : Sync) : List String :=
  if sync.name = "" then seen else seen ++ [sync.name]

/-- Service.validateConfig: first the duplicate-database pass, then the sync
pass with the fully populated database-id set. -/
def validateConfig (cfg : BucardoConfig) : List ValidationError :=
  let dbPass := cfg.databases.foldl
    (fun (acc : List ValidationError × List Int) db =>
      (acc.1 ++ (if acc.2.contains db.id then [.duplicateDbId db.id] else []),
       acc.2 ++ [db.id]))
    ([], [])
  (cfg.syncs.foldl
    (fun (acc : List ValidationError × List String) sync =>
      (acc.1 ++ syncStepErrors dbPass.2 acc.2 sync, syncSeenUpdate acc.2 sync))
    (dbPass.1, [])).1

/-! ### SHA-1 (Go crypto/sha1, as used for dbgroup naming).  Bytes and words
are Nats kept below 2^8 / 2^32 by explicit reduction. -/

/-- Left-rotate a 32-bit word by n bits. -/
def rotl32 (n x : Nat) : Nat :=
  ((x <<< n) % 4294967296) ||| (x >>> (32 - n))

/-- UTF-8 encoding of one character (Go []byte(string) byte sequence). -/
def utf8Bytes (c : Char) : List Nat :=
  let n := c.toNat
  if n < 128 then [n]
  else if n < 2048 then
    [192 ||| (n >>> 6), 128 ||| (n &&& 63)]
  else if n < 65536 then
    [224 ||| (n >>> 12), 128 ||| ((n >>> 6) &&& 63), 128 ||| (n &&& 63)]
  else
    [240 ||| (n >>> 18), 128 ||| ((n >>> 12) &&& 63),
     128 ||| ((n >>> 6) &&& 63), 128 ||| (n &&& 63)]

/-- Bytes of a string, as Go converts a string to []byte. -/
def strBytes (s : String) : List Nat :=
  s.data.flatMap utf8Bytes

/-- SHA-1 message padding: 0x80, zeros to 56 mod 64, 64-bit big-endian length. -/
def sha1Pad (msg : List Nat) : List Nat :=
  let bitLen := msg.length * 8
  let zeros := (120 - ((msg.length + 1) % 64)) % 64
  msg ++ [128] ++ List.replicate zeros 0
    ++ ((List.range 8).map (fun k => (bitLen >>> (8 * (7 - k))) % 256))

/-- Big-endian 32-bit words of one 64-byte chunk. -/
def sha1Words (chunk : List Nat) : Array Nat :=
  ((List.range 16).map (fun i =>
    (chunk.getD (4 * i) 0) * 16777216 + (chunk.getD (4 * i + 1) 0) * 65536
      + (chunk.getD (4 * i + 2) 0) * 256 + chunk.getD (4 * i + 3) 0)).toArray

/-- Message-schedule extension from 16 to 80 words. -/
def sha1Extend (w : Array Nat) : Array Nat :=
  (List.range 64).foldl
    (fun w i =>
      w.push (rotl32 1
        ((w.getD (i + 13) 0) ^^^ (w.getD (i + 8) 0) ^^^ (w.getD (i + 2) 0) ^^^ (w.getD i 0))))
    w

/-- The 80-round compression of one chunk, starting from state (a,b,c,d,e). -/
def sha1Compress (st : Nat × Nat × Nat × Nat × Nat) (w : Array Nat) :
    Nat × Nat × Nat × Nat × Nat :=
  (List.range 80).foldl
    (fun st i =>
      let (a, b, c, d, e) := st
      let f :=
        if i < 20 then (b &&& c) ||| ((b ^^^ 4294967295) &&& d)
        else if i < 40 then b ^^^ c ^^^ d
        else if i < 60 then (b &&& c) ||| (b &&& d) ||| (c &&& d)
        else b ^^^ c ^^^ d
      let k :=
        if i < 20 then 1518500249
        else if i < 40 then 1859775393
        else if i < 60 then 2400959708
        else 3395469782
      let temp := (rotl32 5 a + f + e + k + w.getD i 0) % 4294967296
      (temp, a, rotl32 30 b, c, d))
    st

/-- Process the padded message chunk by chunk.  The fuel argument only bounds
the recursion structurally (each step consumes at least one byte), so any
fuel of at least the byte count computes the Go loop. -/
def sha1Chunks : Nat → Nat × Nat × Nat × Nat × Nat → List Nat →
    Nat × Nat × Nat × Nat × Nat
  | _, h, [] => h
  | 0, h, _ => h
  | fuel + 1, h, b :: rest =>
    let chunk := (b :: rest).take 64
    let st := sha1Compress h (sha1Extend (sha1Words chunk))
    let h' := ((h.1 + st.1) % 4294967296, (h.2.1 + st.2.1) % 4294967296,
      (h.2.2.1 + st.2.2.1) % 4294967296, (h.2.2.2.1 + st.2.2.2.1) % 4294967296,
      (h.2.2.2.2 + st.2.2.2.2) % 4294967296)
    sha1Chunks fuel h' ((b :: rest).drop 64)

/-- Big-endian bytes of one 32-bit word. -/
def word32Bytes (x : Nat) : List Nat :=
  [(x >>> 24) % 256, (x >>> 16) % 256, (x >>> 8) % 256, x % 256]

/-- SHA-1 digest (20 bytes) of a byte sequence. -/
def sha1 (msg : List Nat) : List Nat :=
  let padded := sha1Pad msg
  let h := sha1Chunks padded.length
    (1732584193, 4023233417, 2562383102, 271733878, 3285377520) padded
  word32Bytes h.1 ++ word32Bytes h.2.1 ++ word32Bytes h.2.2.1
    ++ word32Bytes h.2.2.2.1 ++ word32Bytes h.2.2.2.2

/-- One lowercase hex digit. -/
def hexDigit (n : Nat) : Char :=
  if n < 10 then Char.ofNat (48 + n) else Char.ofNat (87 + n)

/-- Lowercase hex rendering of a byte list (Go fmt %x of a byte slice). -/
def bytesHex (bytes : List Nat) : String :=
  String.mk (bytes.flatMap (fun b => [hexDigit (b / 16), hexDigit (b % 16)]))

/-! ### Membership groups (Service.addSyncsToBucardo, dbgroup naming) -/

/-- Role-annotated member strings for a source/target sync, in declaration
order: each source as dbN:source, then each target as dbN:target. -/
def syncMemberStrings (sync : Sync) : List String :=
  sync.sources.map (fun id => "db" ++ toString id ++ ":source")
    ++ sync.targets.map (fun id => "db" ++ toString id ++ ":target")

/-- The 8-hex-character truncated digest of a sorted member list. -/
def memberListDigest (members : List String) : String :=
  bytesHex ((sha1 (strBytes (joinComma (sortStrings members)))).take 4)

/-- The dbgroup name the reconciler computes for a sync: the fixed bg_ name
for a bidirectional sync, otherwise the sync name plus the truncated SHA-1
of the sorted role-annotated member list. -/
def syncDbgroupName (sync : Sync) : String :=
  if ¬ sync.bidirectional.isEmpty then "bg_" ++ sync.name
  else "sg_" ++ sync.name ++ "_" ++ memberListDigest (syncMemberStrings sync)

/-! ### Engine view and operation traces (Service.ReloadAndRestart).

Queries against the engine (list/exists/describe) are provided by an
EngineView; the engine-mutating adapter calls a cycle issues are recorded
as an ordered operation trace.  Failures of individual engine commands are
not modelled: the trace is the sequence of mutating calls a cycle attempts
in order.  The connection parameters passed to RemoveSyncAndRelgroup for
its SQL fallback do not affect which operations run and are omitted. -/

/-- One engine-mutating adapter call. -/
inductive Op where
  | stopBucardo
  | setupPgpass
  | ensureBucardoUserPassword
  | installBucardo
  | setLogLevel (level : String)
  | removeDatabase (name : String)
  | removeSyncAndRelgroup (syncName relgroupName : String)
  | execBucardo (args : List String)
  | startBucardo
deriving DecidableEq, Repr

/-- The engine's current state as observed through the read-only adapter
calls: ListDatabases, ListSyncs, SyncExists (none when absent or the check
fails), GetSyncRelgroup's parse of the details output (none on parse
failure), and GetSyncTables (none when the listing command fails). -/
structure EngineView where
  dbs : List String
  syncs : List String
  syncDetails : String → Option String
  relgroupFromDetails : String → Option String
  relgroupTables : String → Option (List String)

/-- Service.removeOrphanedDbs: delete every engine database whose name is
not dbN for a configured database.  Individual failures are logged only. -/
def removeOrphanedDbs (cfg : BucardoConfig) (eng : EngineView) : List Op :=
  let configDbs := cfg.databases.map (fun db => "db" ++ toString db.id)
  (eng.dbs.filter (fun n => ¬ configDbs.contains n)).map Op.removeDatabase

/-- Service.removeOrphanedSyncs: for every engine sync not named in the
configuration, resolve its relgroup (falling back to the sync name) and
delete sync and relgroup; a failed or negative existence re-check skips the
entry. -/
def removeOrphanedSyncs (cfg : BucardoConfig) (eng : EngineView) : List Op :=
  let configSyncs := cfg.syncs.map (fun s => s.name)
  (eng.syncs.filter (fun n => ¬ configSyncs.contains n)).filterMap (fun n =>
    match eng.syncDetails n with
    | none => none
    | some details =>
      some (Op.removeSyncAndRelgroup n ((eng.relgroupFromDetails details).getD n)))

/-- The add/update db command arguments built by addDatabasesToBucardo. -/
def dbModifyArgs (db : Database) (dbExists : Bool) (password : String) : List String :=
  (if dbExists then ["update", "db"] else ["add", "db"])
    ++ ["db" ++ toString db.id,
        "dbname=" ++ db.dbname, "host=" ++ db.host,
        "user=" ++ db.user, "pass=" ++ password]
    ++ (match db.port with | some p => ["port=" ++ toString p] | none => [])

/-- The loop body of Service.addDatabasesToBucardo: existence check,
password resolution (an error aborts the whole cycle), then one add or
update command per database, accumulated in order. -/
def addDatabasesGo (env : String → String) (eng : EngineView) :
    List Database → List Op → Except String (List Op)
  | [], acc => .ok acc
  | db :: rest, acc =>
    let dbName := "db" ++ toString db.id
    let dbExists := eng.dbs.contains dbName
    match (getDbPassword env db).mapError
        (fun e => "error getting password for db " ++ toString db.id ++ ": " ++ e) with
    | .error e => .error e
    | .ok password =>
      addDatabasesGo env eng rest (acc ++ [Op.execBucardo (dbModifyArgs db dbExists password)])

/-- Service.addDatabasesToBucardo. -/
def addDatabasesToBucardo (env : String → String) (cfg : BucardoConfig)
    (eng : EngineView) : Except String (List Op) :=
  addDatabasesGo env eng cfg.databases []

/-- The trailing option arguments shared by sync creation. -/
def syncOptionArgs (sync : Sync) : List String :=
  (if sync.exitOnComplete = some true then ["stayalive=0", "kidsalive=0"] else [])
    ++ (match sync.strictChecking with
        | some b => ["strict_checking=" ++ (if b then "true" else "false")]
        | none => [])
    ++ (if sync.conflictStrategy ≠ "" then ["conflict_strategy=" ++ sync.conflictStrategy] else [])

/-- The dbgroup members the creation path registers: all participants as
sources for a bidirectional sync, otherwise the role-annotated list. -/
def syncGroupMembers (sync : Sync) : List String :=
  if ¬ sync.bidirectional.isEmpty then
    sync.bidirectional.map (fun id => "db" ++ toString id ++ ":source")
  else syncMemberStrings sync

/-- The dbgroup recreation commands of the creation path: idempotent
pre-delete, then add with the member list. -/
def syncGroupOps (sync : Sync) : List Op :=
  [Op.execBucardo ["del", "dbgroup", syncDbgroupName sync],
   Op.execBucardo (["add", "dbgroup", syncDbgroupName sync] ++ syncGroupMembers sync)]

/-- The herd preparation commands of the creation path: destructive herd
recreation, then registration of all tables of the first declared source.
Go indexes Sources[0] and would panic on an empty source list; headD 0
stands in for that unreachable-on-validated-input case. -/
def syncHerdOps (sync : Sync) : List Op :=
  if sync.herd ≠ "" then
    [Op.execBucardo ["del", "herd", sync.herd, "--force"],
     Op.execBucardo ["add", "herd", sync.herd],
     Op.execBucardo ["add", "all", "tables", "--herd=" ++ sync.herd,
       "db=" ++ ("db" ++ toString (sync.sources.headD 0))]]
  else []

/-- The argument list of the final add sync command. -/
def syncAddArgs (sync : Sync) : List String :=
  ["add", "sync", sync.name, "onetimecopy=" ++ toString sync.onetimecopy]
    ++ ["dbs=" ++ syncDbgroupName sync]
    ++ (if sync.herd ≠ "" then ["herd=" ++ sync.herd]
        else if sync.tables ≠ "" then ["tables=" ++ sync.tables] else [])
    ++ syncOptionArgs sync

/-- The creation path of addSyncsToBucardo for one sync: recreate the
dbgroup (delete then add), prepare the herd when one is named, then issue
the final add sync command. -/
def syncCreateOps (sync : Sync) : List Op :=
  syncGroupOps sync ++ syncHerdOps sync ++ [Op.execBucardo (syncAddArgs sync)]

/-- The non-destructive update command for an existing sync: only the
mutable fields (schema strictness, conflict strategy). -/
def syncUpdateArgs (sync : Sync) : List String :=
  ["update", "sync", sync.name]
    ++ (match sync.strictChecking with
        | some b => ["strict_checking=" ++ (if b then "true" else "false")]
        | none => [])
    ++ (if sync.conflictStrategy ≠ "" then ["conflict_strategy=" ++ sync.conflictStrategy] else [])

/-- The desired table list as addSyncsToBucardo normalizes it: split on
commas, trim each entry, sort. -/
def normalizeConfigTables (tables : String) : List String :=
  sortStrings ((splitCommas tables).map goTrimSpace)

/-- GetSyncTables post-processing (cli.go): each regex-matched token has
trailing commas removed, is cut at the first parenthesis and trimmed, empty
results are dropped, and the final list is sorted. -/
def getSyncTablesFromTokens (tokens : List String) : List String :=
  sortStrings
    ((tokens.map (fun t =>
        goTrimSpace (((String.mk ((t.data.reverse.dropWhile (fun c => c = ',')).reverse)).splitOn "(").headD "")))
      |>.filter (fun t => t ≠ ""))

/-- One iteration of the addSyncsToBucardo loop.  For an existing sync with
an explicit table list the engine list and the normalized desired list are
compared as joined strings; inequality triggers delete-and-recreate, else a
non-destructive update.  When GetSyncTables fails the Go current-tables
slice stays nil, which is what the comparison then uses. -/
def reconcileOneSync (eng : EngineView) (sync : Sync) : List Op :=
  match eng.syncDetails sync.name with
  | some details =>
    if sync.tables ≠ "" then
      let relgroupName := (eng.relgroupFromDetails details).getD sync.name
      let currentTables := (eng.relgroupTables relgroupName).getD []
      let configTables := normalizeConfigTables sync.tables
      if joinComma currentTables ≠ joinComma configTables then
        Op.removeSyncAndRelgroup sync.name relgroupName :: syncCreateOps sync
      else [Op.execBucardo (syncUpdateArgs sync)]
    else [Op.execBucardo (syncUpdateArgs sync)]
  | none => syncCreateOps sync

/-- Service.addSyncsToBucardo over all configured syncs, in order. -/
def addSyncsToBucardo (eng : EngineView) (cfg : BucardoConfig) : List Op :=
  cfg.syncs.flatMap (reconcileOneSync eng)

/-- The optional set log_level command (Service.setLogLevel). -/
def setLogLevelOps (cfg : BucardoConfig) : List Op :=
  if cfg.logLevel ≠ "" then [Op.setLogLevel cfg.logLevel] else []

/-- SetupPgpass resolves a password for every database handed to it; the
first failure aborts.  ReloadAndRestart prepends the two synthetic system
entries, whose pass fields are the literal BUCARDO_DB_PASS value. -/
def setupPgpassCheck (env : String → String) (dbs : List Database) : Except String Unit :=
  dbs.foldlM (fun _ db => do let _ ← getDbPassword env db; pure ()) ()

/-- Go getEnv: the value when the variable is set and non-empty is modelled
by a plain environment function; Go's os.LookupEnv distinguishes unset from
empty, which the claims here never depend on, so unset is the empty
string. -/
def envOr (env : String → String) (key fallback : String) : String :=
  if env key = "" then fallback else env key

/-- The two synthetic .pgpass entries ReloadAndRestart builds from the
process environment (system and superuser connections). -/
def systemPgpassDatabases (env : String → String) : List Database :=
  let dbName := envOr env "BUCARDO_DB_NAME" "bucardo"
  let dbHost := envOr env "BUCARDO_DB_HOST" "postgres"
  let dbUser := envOr env "BUCARDO_DB_USER" "postgres"
  let dbPass := envOr env "BUCARDO_DB_PASS" "changeme"
  let dbPort := (envOr env "BUCARDO_DB_PORT" "5432").toInt?.getD 0
  [{ id := 0, dbname := dbName, host := dbHost, user := dbName, pass := dbPass,
     port := some dbPort },
   { id := -1, dbname := dbName, host := dbHost, user := dbUser, pass := dbPass,
     port := some dbPort }]

/-- Service.ReloadAndRestart as the ordered trace of engine-mutating calls
of one reconciliation cycle.  Validation failure refuses the cycle before
any call; otherwise: stop, credential setup, user-password fix, install,
optional log level, database orphan pruning, sync orphan pruning, database
reconciliation, sync reconciliation, start. -/
def reloadAndRestart (env : String → String) (cfg : BucardoConfig)
    (eng : EngineView) : Except String (List Op) :=
  if validateConfig cfg ≠ [] then .error "configuration validation failed"
  else do
    let _ ← setupPgpassCheck env (systemPgpassDatabases env ++ cfg.databases)
    let dbOps ← addDatabasesToBucardo env cfg eng
    let syncOps := addSyncsToBucardo eng cfg
    pure ([Op.stopBucardo, Op.setupPgpass, Op.ensureBucardoUserPassword, Op.installBucardo]
      ++ setLogLevelOps cfg
      ++ removeOrphanedDbs cfg eng
      ++ removeOrphanedSyncs cfg eng
      ++ dbOps ++ syncOps ++ [Op.startBucardo])

/-! ### Completion monitor (MonitorAdapter.MonitorSyncs / MonitorBucardo).

The run-once bookkeeping from Service.Run and the per-event behaviour of
the monitoring select loop.  The pending name set is a list; Go's map
iteration order is immaterial because a log line removes every matching
name and the stop commands it issues are per-name. -/

/-- The names registered in Service.Run's runOnceSyncs map: syncs with
exit_on_complete true, one map key per distinct name. -/
def runOnceNames (cfg : BucardoConfig) : List String :=
  ((cfg.syncs.filter (fun s => s.exitOnComplete = some true)).map (fun s => s.name)).dedup

/-- Service.Run's maxTimeout: the running maximum of the configured
exit_on_complete_timeout values over run-once syncs, none when no run-once
sync specifies one. -/
def computeMaxTimeout (cfg : BucardoConfig) : Option Int :=
  cfg.syncs.foldl
    (fun acc s =>
      if s.exitOnComplete = some true then
        match s.exitOnCompleteTimeout, acc with
        | some t, none => some t
        | some t, some m => if t > m then some t else some m
        | none, _ => acc
      else acc)
    none

/-- MonitorSyncs arms its timeout channel only for a present, positive
maximum timeout. -/
def timerArmed (maxTimeout : Option Int) : Bool :=
  match maxTimeout with
  | some t => t > 0
  | none => false

/-- allSyncsAreRunOnce in MonitorSyncs. -/
def allSyncsAreRunOnce (cfg : BucardoConfig) : Bool :=
  cfg.syncs.length == (runOnceNames cfg).length

/-- The fixed normal-completion phrase searched for in each log line. -/
def completionMarker : String := "Reason: Normal exit"

/-- The bracketed worker-identifier form of a sync name. -/
def kidTag (name : String) : String := "KID (" ++ name ++ ")"

/-- Observable monitor actions: republishing a log line, stopping one sync
(with the recorded success of that stop command), stopping the engine. -/
inductive MonAct where
  | logLine (line : String)
  | stopSync (name : String) (ok : Bool)
  | stopEngine
deriving DecidableEq, Repr

/-- Processing of one received log line in the Watching state: when the
line carries the completion marker, every still-pending name whose KID tag
occurs in the line is removed and an individual stop command issued for it;
the stop command's outcome (stopOk) is logged only and never alters the
removal.  Mirrors the range-and-delete loop of MonitorSyncs. -/
def processLine (stopOk : String → Bool) (pending : List String) (line : String) :
    List String × List MonAct :=
  if strContains line completionMarker then
    pending.foldl
      (fun (acc : List String × List MonAct) n =>
        if strContains line (kidTag n) then
          (acc.1.erase n, acc.2 ++ [MonAct.stopSync n (stopOk n)])
        else acc)
      (pending, [])
  else (pending, [])

/-- Events the Watching select loop can wake on. -/
inductive MonEvent where
  | logLine (line : String)
  | deadline
  | cancel
deriving DecidableEq, Repr

/-- The monitor's disposition after one event. -/
inductive MonResult where
  | watching (pending : List String)
  | stoppedAllComplete
  | steadyState
  | timedOut
  | cancelled
deriving DecidableEq, Repr

/-- One iteration of the MonitorSyncs select loop in the Watching state:
a log line is republished, matched, and the now-empty pending set either
stops the whole engine (all syncs run-once) or hands off to steady-state
supervision; the deadline firing and cancellation both stop the engine. -/
def monitorStep (stopOk : String → Bool) (allRunOnce : Bool)
    (pending : List String) (ev : MonEvent) : MonResult × List MonAct :=
  match ev with
  | .logLine line =>
    let res := processLine stopOk pending line
    let acts := MonAct.logLine line :: res.2
    if res.1.isEmpty then
      if allRunOnce then (.stoppedAllComplete, acts ++ [MonAct.stopEngine])
      else (.steadyState, acts)
    else (.watching res.1, acts)
  | .deadline => (.timedOut, [MonAct.stopEngine])
  | .cancel => (.cancelled, [MonAct.stopEngine])

/-- Process exit status attached to a terminal monitor disposition:
stoppedAllComplete lets MonitorSyncs and Service.Run return nil so main
exits 0; the deadline path calls os.Exit(1). -/
def monResultExitCode : MonResult → Option Nat
  | .stoppedAllComplete => some 0
  | .timedOut => some 1
  | _ => none

/-- Steady-state supervision events (MonitorBucardo): an OS signal or
context cancellation; log lines carry no control meaning there. -/
inductive SteadyEvent where
  | signal
  | cancel
deriving DecidableEq, Repr

/-- MonitorBucardo's reaction to the only events it selects on. -/
def monitorBucardoStep : SteadyEvent → List MonAct :=
  fun _ => [MonAct.stopEngine]

/-! ### Password redaction (cli.go redactPassword / runCommand).

Go regexp pass=[^ ]+ with ReplaceAllString: scanning left to right, at the
first position where the literal pass= is followed by at least one
non-space character, that token up to the next space is replaced by
pass=*****, and scanning resumes after the match. -/

/-- Whether the regex pass=[^ ]+ matches at the head of the char list. -/
def passMatchAt (l : List Char) : Bool :=
  "pass=".data.isPrefixOf l && (l.drop 5).headD ' ' ≠ ' '

/-- redactPassword's replacement scan.  Fuel bounds the recursion
structurally; every step consumes at least one character, so fuel of at
least the list length computes the full scan. -/
def redactCharsFuel : Nat → List Char → List Char
  | 0, l => l
  | _, [] => []
  | fuel + 1, c :: rest =>
    if passMatchAt (c :: rest) then
      "pass=*****".data ++
        redactCharsFuel fuel (((c :: rest).drop 5).dropWhile (fun x => x ≠ ' '))
    else c :: redactCharsFuel fuel rest

/-- redactPassword from cli.go. -/
def redactPassword (cmd : String) : String :=
  String.mk (redactCharsFuel cmd.data.length cmd.data)

/-- runCommand logs exactly the redacted command text (cli.go lines 44-46):
the logged string for a command is redactPassword of it. -/
def runCommandLoggedText (logCmd : String) : String :=
  redactPassword logCmd

/-! ### Administrative sync operations (Service.AddSync / UpdateSync /
DeleteSync, through Service.UpdateConfig).  Each returns the new stored
configuration; an error leaves the stored state untouched because
SaveConfig is never reached. -/

/-- Service.UpdateConfig: validate, then save. -/
def UpdateConfig (cfg : BucardoConfig) : Except String BucardoConfig :=
  if validateConfig cfg ≠ [] then .error "invalid config" else .ok cfg

/-- Service.AddSync. -/
def AddSync (cfg : BucardoConfig) (sync : Sync) : Except String BucardoConfig :=
  if cfg.syncs.any (fun e => e.name == sync.name) then
    .error ("sync already exists: " ++ sync.name)
  else UpdateConfig { cfg with syncs := cfg.syncs ++ [sync] }

/-- The first-match in-place replacement of Service.UpdateSync's loop; the
stored sync's name is forced to the requested name. -/
def updateSyncsList (name : String) (updated : Sync) : List Sync → Option (List Sync)
  | [] => none
  | s :: rest =>
    if s.name == name then some ({ updated with name := name } :: rest)
    else (updateSyncsList name updated rest).map (fun l => s :: l)

/-- Service.UpdateSync. -/
def UpdateSync (cfg : BucardoConfig) (name : String) (updated : Sync) :
    Except String BucardoConfig :=
  match updateSyncsList name updated cfg.syncs with
  | none => .error ("sync not found: " ++ name)
  | some syncs => UpdateConfig { cfg with syncs := syncs }

/-- Service.DeleteSync. -/
def DeleteSync (cfg : BucardoConfig) (name : String) : Except String BucardoConfig :=
  if cfg.syncs.any (fun s => s.name == name) then
    UpdateConfig { cfg with syncs := cfg.syncs.filter (fun s => ¬ s.name == name) }
  else .error ("sync not found: " ++ name)

/-! ### Observation predicates over operation traces -/

/-- An orphan-pruning engine call with respect to a configuration: deleting
a database (only pruning deletes databases), or deleting a sync whose name
is not declared.  RemoveSyncAndRelgroup also appears in destructive
recreation, but there only for declared sync names. -/
def isOrphanPruneOp (cfg : BucardoConfig) : Op → Bool
  | .removeDatabase _ => true
  | .removeSyncAndRelgroup n _ => ¬ (cfg.syncs.map (fun s => s.name)).contains n
  | _ => false

/-- A call that creates or updates a declared entity: an add/update db or
add/update sync command. -/
def isDeclaredReconcileOp : Op → Bool
  | .execBucardo ("add" :: "db" :: _) => true
  | .execBucardo ("update" :: "db" :: _) => true
  | .execBucardo ("add" :: "sync" :: _) => true
  | .execBucardo ("update" :: "sync" :: _) => true
  | _ => false

/-! ### Concrete fixtures for the counterexamples -/

/-- A minimal valid configuration declaring one database and no syncs. -/
def cfgOneDb : BucardoConfig :=
  { databases := [{ id := 1, dbname := "d1", host := "h1", user := "u1", pass := "p1" }],
    syncs := [] }

/-- An engine view reporting one undeclared database and nothing else. -/
def engOneOrphanDb : EngineView :=
  { dbs := ["db9"], syncs := [],
    syncDetails := fun _ => none,
    relgroupFromDetails := fun _ => none,
    relgroupTables := fun _ => none }

/-- The trace of the cycle on the fixture above (some-valued by the
counterexample theorem). -/
def traceOneOrphanDb : List Op :=
  ((reloadAndRestart (fun _ => "") cfgOneDb engOneOrphanDb).toOption).getD []

/-- A declared sync with an explicit, duplicated table entry. -/
def syncDupTables : Sync :=
  { name := "s", sources := [1], targets := [2], tables := "t1,t1" }

/-- An engine view where sync s exists with relgroup g holding table t1. -/
def engDupTables : EngineView :=
  { dbs := [], syncs := ["s"],
    syncDetails := fun n => if n = "s" then some "details" else none,
    relgroupFromDetails := fun _ => some "g",
    relgroupTables := fun g => if g = "g" then some ["t1"] else none }

/-- A sync whose role-annotated participant multiset repeats a member; its
participant set equals that of syncSrcOnce. -/
def syncSrcTwice : Sync := { name := "s", sources := [1, 1], targets := [2] }

/-- The deduplicated counterpart of syncSrcTwice. -/
def syncSrcOnce : Sync := { name := "s", sources := [1], targets := [2] }

/-- First half of a truncated-digest collision pair: both this membership
and that of syncCollB hash to the 4-byte prefix 1302fdf3. -/
def syncCollA : Sync := { name := "s", sources := [169], targets := [167] }

/-- Second half of the truncated-digest collision pair. -/
def syncCollB : Sync := { name := "s", sources := [253], targets := [374] }

/-! ## Theorems

### Order lemmas for the string sort -/

theorem charListLe_total (a b : List Char) :
    charListLe a b = true ∨ charListLe b a = true := by
  induction a generalizing b with
  | nil => left; rfl
  | cons x xs ih =>
    cases b with
    | nil => right; rfl
    | cons y ys =>
      by_cases h1 : x.toNat < y.toNat
      · left; simp [charListLe, if_pos h1]
      · by_cases h2 : y.toNat < x.toNat
        · right; simp [charListLe, if_pos h2]
        · rcases ih ys with h3 | h3
          · left; simp only [charListLe, if_neg h1, if_neg h2]; exact h3
          · right; simp only [charListLe, if_neg h1, if_neg h2]; exact h3

theorem char_eq_of_toNat_eq {a b : Char} (h : a.toNat = b.toNat) : a = b := by
  have := congrArg Char.ofNat h
  simpa [Char.ofNat_toNat] using this

theorem charListLe_antisymm {a b : List Char} (hab : charListLe a b = true)
    (hba : charListLe b a = true) : a = b := by
  induction a generalizing b with
  | nil =>
    cases b with
    | nil => rfl
    | cons y ys => simp [charListLe] at hba
  | cons x xs ih =>
    cases b with
    | nil => simp [charListLe] at hab
    | cons y ys =>
      by_cases h1 : x.toNat < y.toNat
      · have h2 : ¬ y.toNat < x.toNat := by omega
        simp [charListLe, if_neg h2, if_pos h1] at hba
      · by_cases h2 : y.toNat < x.toNat
        · simp [charListLe, if_neg h1, if_pos h2] at hab
        · simp only [charListLe, if_neg h1, if_neg h2] at hab hba
          have hx : x.toNat = y.toNat := by omega
          rw [char_eq_of_toNat_eq hx, ih hab hba]

theorem charListLe_trans {a b c : List Char} (hab : charListLe a b = true)
    (hbc : charListLe b c = true) : charListLe a c = true := by
  induction a generalizing b c with
  | nil => rfl
  | cons x xs ih =>
    cases b with
    | nil => simp [charListLe] at hab
    | cons y ys =>
      cases c with
      | nil => simp [charListLe] at hbc
      | cons z zs =>
        by_cases h1 : x.toNat < y.toNat
        · by_cases h2 : y.toNat < z.toNat
          · have h3 : x.toNat < z.toNat := by omega
            simp [charListLe, if_pos h3]
          · by_cases h4 : z.toNat < y.toNat
            · simp [charListLe, if_neg h2, if_pos h4] at hbc
            · have h3 : x.toNat < z.toNat := by omega
              simp [charListLe, if_pos h3]
        · by_cases h2 : y.toNat < x.toNat
          · simp [charListLe, if_neg h1, if_pos h2] at hab
          · simp only [charListLe, if_neg h1, if_neg h2] at hab
            by_cases h3 : y.toNat < z.toNat
            · have h4 : x.toNat < z.toNat := by omega
              simp [charListLe, if_pos h4]
            · by_cases h5 : z.toNat < y.toNat
              · simp [charListLe, if_neg h3, if_pos h5] at hbc
              · simp only [charListLe, if_neg h3, if_neg h5] at hbc
                have h6 : ¬ x.toNat < z.toNat := by omega
                have h7 : ¬ z.toNat < x.toNat := by omega
                simp only [charListLe, if_neg h6, if_neg h7]
                exact ih hab hbc

theorem strLe_total (a b : String) : strLe a b = true ∨ strLe b a = true :=
  charListLe_total a.data b.data

theorem strLe_antisymm {a b : String} (hab : strLe a b = true)
    (hba : strLe b a = true) : a = b := by
  cases a; cases b
  exact congrArg String.mk (charListLe_antisymm hab hba)

theorem strLe_trans {a b c : String} (hab : strLe a b = true)
    (hbc : strLe b c = true) : strLe a c = true :=
  charListLe_trans hab hbc

theorem insertSorted_perm (a : String) (l : List String) :
    (insertSorted a l).Perm (a :: l) := by
  induction l with
  | nil => rfl
  | cons b t ih =>
    by_cases h : strLe a b
    · simp [insertSorted, h]
    · simp only [insertSorted, h, if_false]
      exact ((ih.cons b).trans (List.Perm.swap a b t))

theorem sortStrings_perm (l : List String) : (sortStrings l).Perm l := by
  induction l with
  | nil => rfl
  | cons a t ih => exact (insertSorted_perm a (sortStrings t)).trans (ih.cons a)

theorem insertSorted_sorted {l : List String} (a : String)
    (h : List.Sorted (fun x y => strLe x y = true) l) :
    List.Sorted (fun x y => strLe x y = true) (insertSorted a l) := by
  induction l with
  | nil => simp [insertSorted]
  | cons b t ih =>
    by_cases hab : strLe a b
    · simp only [insertSorted, hab, if_true]
      refine List.sorted_cons.mpr ⟨?_, h⟩
      intro u hu
      rcases List.mem_cons.mp hu with rfl | hu
      · exact hab
      · exact strLe_trans hab (List.rel_of_sorted_cons h u hu)
    · simp only [insertSorted, hab, if_false]
      have hba : strLe b a = true := (strLe_total a b).resolve_left (by simpa using hab)
      have ht : List.Sorted (fun x y => strLe x y = true) t := (List.sorted_cons.mp h).2
      refine List.sorted_cons.mpr ⟨?_, ih ht⟩
      intro u hu
      rcases List.mem_cons.mp ((insertSorted_perm a t).mem_iff.mp hu) with rfl | hu2
      · exact hba
      · exact List.rel_of_sorted_cons h u hu2

theorem sortStrings_sorted (l : List String) :
    List.Sorted (fun x y => strLe x y = true) (sortStrings l) := by
  induction l with
  | nil => simp [sortStrings]
  | cons a t ih => exact insertSorted_sorted a ih

theorem sortStrings_eq_of_perm {l1 l2 : List String} (h : l1.Perm l2) :
    sortStrings l1 = sortStrings l2 := by
  haveI : IsAntisymm String (fun x y => strLe x y = true) :=
    ⟨fun _ _ hab hba => strLe_antisymm hab hba⟩
  exact List.eq_of_perm_of_sorted
    (((sortStrings_perm l1).trans h).trans (sortStrings_perm l2).symm)
    (sortStrings_sorted l1) (sortStrings_sorted l2)

/-! ### C3: membership-group identity -/

theorem memberListDigest_perm {m1 m2 : List String} (h : m1.Perm m2) :
    memberListDigest m1 = memberListDigest m2 := by
  unfold memberListDigest
  rw [sortStrings_eq_of_perm h]

theorem string_append_left_cancel {p a b : String} (h : p ++ a = p ++ b) : a = b := by
  have hd : p.data ++ a.data = p.data ++ b.data := by
    have := congrArg String.data h
    simpa [String.data_append] using this
  cases a; cases b
  exact congrArg String.mk (List.append_cancel_left hd)

/-- C3 (amended): for a bidirectional sync the group identity is the fixed
name bg_ plus the sync name; for a source/target sync the identity is
invariant under any reordering of the role-annotated participant list (a
function of its multiset), and two such syncs with the same name receive
the same identity exactly when the truncated SHA-1 digests of their sorted
member lists coincide.  (The original claim's invariance under set-equal
membership, and its injectivity in the membership, both fail; see the
counterexample.) -/
theorem c3_group_identity_deterministic (s1 s2 : Sync) (hname : s1.name = s2.name) :
    (s1.bidirectional.isEmpty = false → syncDbgroupName s1 = "bg_" ++ s1.name)
    ∧ (s1.bidirectional.isEmpty = true → s2.bidirectional.isEmpty = true →
        ((syncMemberStrings s1).Perm (syncMemberStrings s2) →
            syncDbgroupName s1 = syncDbgroupName s2)
        ∧ (syncDbgroupName s1 = syncDbgroupName s2 ↔
            memberListDigest (syncMemberStrings s1) =
              memberListDigest (syncMemberStrings s2))) := by
  constructor
  · intro h
    simp [syncDbgroupName, h]
  · intro h1 h2
    have e1 : syncDbgroupName s1 =
        ("sg_" ++ s1.name ++ "_") ++ memberListDigest (syncMemberStrings s1) := by
      simp [syncDbgroupName, h1, String.append_assoc]
    have e2 : syncDbgroupName s2 =
        ("sg_" ++ s1.name ++ "_") ++ memberListDigest (syncMemberStrings s2) := by
      simp [syncDbgroupName, h2, hname, String.append_assoc]
    constructor
    · intro hperm
      rw [e1, e2, memberListDigest_perm hperm]
    · constructor
      · intro h
        exact string_append_left_cancel (e1 ▸ e2 ▸ h)
      · intro h
        rw [e1, e2, h]

/-- C3 witness: reordering the source list leaves the group identity of a
source/target sync unchanged. -/
theorem c3_group_identity_deterministic_witness :
    syncDbgroupName { name := "w", sources := [1, 2], targets := [3] } =
      syncDbgroupName { name := "w", sources := [2, 1], targets := [3] } :=
  (((c3_group_identity_deterministic
      { name := "w", sources := [1, 2], targets := [3] }
      { name := "w", sources := [2, 1], targets := [3] } rfl).2
    rfl rfl).1) (by decide)

/-- C3 counterexample: two syncs whose role-annotated participant sets are
equal receive different group identities (a repeated source changes the
hashed list), and two syncs with different participant sets receive the
same identity (their 4-byte truncated SHA-1 digests collide), so the
identity is neither a function of the membership set nor injective in the
membership. -/
theorem c3_group_identity_counterexample :
    ((syncMemberStrings syncSrcTwice).toFinset = (syncMemberStrings syncSrcOnce).toFinset
      ∧ syncSrcTwice.name = syncSrcOnce.name
      ∧ syncDbgroupName syncSrcTwice ≠ syncDbgroupName syncSrcOnce)
    ∧ ((syncMemberStrings syncCollA).toFinset ≠ (syncMemberStrings syncCollB).toFinset
      ∧ syncCollA.name = syncCollB.name
      ∧ syncDbgroupName syncCollA = syncDbgroupName syncCollB) :=
  ⟨⟨by decide, rfl, by decide⟩, ⟨by decide, rfl, by decide⟩⟩

/-! ### C1: position of orphan pruning within the cycle -/

theorem header_not_declared {cfg : BucardoConfig} {op : Op}
    (h : op ∈ [Op.stopBucardo, Op.setupPgpass, Op.ensureBucardoUserPassword,
        Op.installBucardo] ++ setLogLevelOps cfg) :
    isDeclaredReconcileOp op = false := by
  rcases List.mem_append.mp h with h1 | h1
  · fin_cases h1 <;> rfl
  · unfold setLogLevelOps at h1
    by_cases hl : cfg.logLevel ≠ ""
    · rw [if_pos hl] at h1
      rcases List.mem_singleton.mp h1 with rfl
      rfl
    · rw [if_neg hl] at h1
      exact absurd h1 (List.not_mem_nil op)

theorem orphanDbs_not_declared {cfg : BucardoConfig} {eng : EngineView} {op : Op}
    (h : op ∈ removeOrphanedDbs cfg eng) : isDeclaredReconcileOp op = false := by
  unfold removeOrphanedDbs at h
  rcases List.mem_map.mp h with ⟨n, _, rfl⟩
  rfl

theorem orphanSyncs_not_declared {cfg : BucardoConfig} {eng : EngineView} {op : Op}
    (h : op ∈ removeOrphanedSyncs cfg eng) : isDeclaredReconcileOp op = false := by
  unfold removeOrphanedSyncs at h
  rcases List.mem_filterMap.mp h with ⟨n, _, hsome⟩
  split at hsome
  · exact absurd hsome (by simp)
  · rcases Option.some_injective _ hsome with rfl
    rfl

theorem addDatabasesGo_ops_exec {env : String → String} {eng : EngineView} :
    ∀ (dbs : List Database) (acc l : List Op),
      addDatabasesGo env eng dbs acc = .ok l →
      (∀ op ∈ acc, ∃ args, op = Op.execBucardo args) →
      ∀ op ∈ l, ∃ args, op = Op.execBucardo args := by
  intro dbs
  induction dbs with
  | nil =>
    intro acc l h hacc
    cases h
    exact hacc
  | cons db rest ih =>
    intro acc l h hacc
    unfold addDatabasesGo at h
    split at h
    · cases h
    · refine ih _ l h ?_
      intro op hop
      rcases List.mem_append.mp hop with hop | hop
      · exact hacc op hop
      · rcases List.mem_singleton.mp hop with rfl
        exact ⟨_, rfl⟩

theorem addDatabases_ops_exec {env : String → String} {cfg : BucardoConfig}
    {eng : EngineView} {l : List Op} (h : addDatabasesToBucardo env cfg eng = .ok l) :
    ∀ op ∈ l, ∃ args, op = .execBucardo args :=
  addDatabasesGo_ops_exec cfg.databases [] l h
    (by intro op hop; exact absurd hop (List.not_mem_nil op))

theorem createOps_exec {sync : Sync} {op : Op} (h : op ∈ syncCreateOps sync) :
    ∃ args, op = .execBucardo args := by
  unfold syncCreateOps at h
  rcases List.mem_append.mp h with h1 | h1
  · rcases List.mem_append.mp h1 with h2 | h2
    · unfold syncGroupOps at h2
      fin_cases h2 <;> exact ⟨_, rfl⟩
    · unfold syncHerdOps at h2
      by_cases hh : sync.herd ≠ ""
      · rw [if_pos hh] at h2
        fin_cases h2 <;> exact ⟨_, rfl⟩
      · rw [if_neg hh] at h2
        exact absurd h2 (List.not_mem_nil op)
  · rcases List.mem_singleton.mp h1 with rfl
    exact ⟨_, rfl⟩

theorem reconcile_not_prune {cfg : BucardoConfig} {eng : EngineView} {sync : Sync}
    {op : Op} (hs : sync ∈ cfg.syncs) (h : op ∈ reconcileOneSync eng sync) :
    isOrphanPruneOp cfg op = false := by
  have hname : ((cfg.syncs.map (fun s => s.name)).contains sync.name) = true := by
    have hm : sync.name ∈ cfg.syncs.map (fun s => s.name) := List.mem_map.mpr ⟨sync, hs, rfl⟩
    exact List.elem_eq_true_of_mem hm
  unfold reconcileOneSync at h
  cases hd : eng.syncDetails sync.name with
  | none =>
    rw [hd] at h
    rcases createOps_exec h with ⟨args, rfl⟩
    rfl
  | some details =>
    rw [hd] at h
    dsimp only at h
    by_cases ht : sync.tables ≠ ""
    · rw [if_pos ht] at h
      by_cases hj : joinComma ((eng.relgroupTables
            ((eng.relgroupFromDetails details).getD sync.name)).getD []) ≠
          joinComma (normalizeConfigTables sync.tables)
      · rw [if_pos hj] at h
        rcases List.mem_cons.mp h with rfl | h
        · simp only [isOrphanPruneOp, hname]
          rfl
        · rcases createOps_exec h with ⟨args, rfl⟩
          rfl
      · rw [if_neg hj] at h
        rcases List.mem_singleton.mp h with rfl
        rfl
    · rw [if_neg ht] at h
      rcases List.mem_singleton.mp h with rfl
      rfl

theorem syncOps_not_prune {cfg : BucardoConfig} {eng : EngineView} {op : Op}
    (h : op ∈ addSyncsToBucardo eng cfg) : isOrphanPruneOp cfg op = false := by
  unfold addSyncsToBucardo at h
  rcases List.mem_flatMap.mp h with ⟨sync, hs, hop⟩
  exact reconcile_not_prune hs hop

theorem reload_trace_split {env : String → String} {cfg : BucardoConfig}
    {eng : EngineView} {t : List Op} (h : reloadAndRestart env cfg eng = .ok t) :
    ∃ dbOps, addDatabasesToBucardo env cfg eng = .ok dbOps ∧
      t = ([Op.stopBucardo, Op.setupPgpass, Op.ensureBucardoUserPassword, Op.installBucardo]
            ++ setLogLevelOps cfg ++ (removeOrphanedDbs cfg eng ++ removeOrphanedSyncs cfg eng))
          ++ (dbOps ++ addSyncsToBucardo eng cfg ++ [Op.startBucardo]) := by
  unfold reloadAndRestart at h
  split at h
  · cases h
  · cases hs : setupPgpassCheck env (systemPgpassDatabases env ++ cfg.databases) with
    | error e => rw [hs] at h; simp [bind, Except.bind] at h
    | ok u =>
      rw [hs] at h
      cases hdb : addDatabasesToBucardo env cfg eng with
      | error e => rw [hdb] at h; simp [bind, Except.bind] at h
      | ok dbOps =>
        rw [hdb] at h
        simp only [bind, Except.bind, pure, Except.pure] at h
        cases h
        exact ⟨dbOps, rfl, by simp [List.append_assoc]⟩

/-- C1 (amended): in every completed reconciliation cycle, every
orphan-pruning call (database deletion, or deletion of a sync not named in
the configuration) comes strictly before every call that creates or
updates a declared database or sync; the source runs pruning first, not
last. -/
theorem c1_orphan_pruning_precedes_declared (env : String → String)
    (cfg : BucardoConfig) (eng : EngineView) (t : List Op)
    (h : reloadAndRestart env cfg eng = .ok t)
    (i j : Nat) (hi : i < t.length) (hj : j < t.length)
    (hp : isOrphanPruneOp cfg (t.get ⟨i, hi⟩) = true)
    (hd : isDeclaredReconcileOp (t.get ⟨j, hj⟩) = true) : i < j := by
  rcases reload_trace_split h with ⟨dbOps, hdb, rfl⟩
  set A := [Op.stopBucardo, Op.setupPgpass, Op.ensureBucardoUserPassword, Op.installBucardo]
      ++ setLogLevelOps cfg ++ (removeOrphanedDbs cfg eng ++ removeOrphanedSyncs cfg eng) with hA
  set C := dbOps ++ addSyncsToBucardo eng cfg ++ [Op.startBucardo] with hC
  have hCnp : ∀ op ∈ C, isOrphanPruneOp cfg op = false := by
    intro op hop
    rcases List.mem_append.mp hop with hop | hop
    · rcases List.mem_append.mp hop with hop | hop
      · rcases addDatabases_ops_exec hdb op hop with ⟨args, rfl⟩
        rfl
      · exact syncOps_not_prune hop
    · rcases List.mem_singleton.mp hop with rfl
      rfl
  have hAnd : ∀ op ∈ A, isDeclaredReconcileOp op = false := by
    intro op hop
    rcases List.mem_append.mp hop with hop | hop
    · exact header_not_declared hop
    · rcases List.mem_append.mp hop with hop | hop
      · exact orphanDbs_not_declared hop
      · exact orphanSyncs_not_declared hop
  have hiA : i < A.length := by
    by_contra hge
    push_neg at hge
    have hi' : i - A.length < C.length := by
      have := List.length_append A C ▸ hi
      omega
    have heq : (A ++ C).get ⟨i, hi⟩ = C.get ⟨i - A.length, hi'⟩ := by
      rw [List.get_append_right] <;> omega
    rw [heq] at hp
    rw [hCnp _ (List.get_mem C _ _)] at hp
    cases hp
  have hjA : A.length ≤ j := by
    by_contra hlt
    push_neg at hlt
    have heq : (A ++ C).get ⟨j, hj⟩ = A.get ⟨j, hlt⟩ := List.get_append j hlt
    rw [heq] at hd
    rw [hAnd _ (List.get_mem A _ _)] at hd
    cases hd
  omega

/-- C1 counterexample: with one declared database and an engine reporting
only the orphan db9, the cycle deletes the orphan (index 4) before issuing
the add command for the declared database (index 5), so creates and
updates of declared entities do not precede orphan deletions. -/
theorem c1_orphan_pruning_counterexample :
    reloadAndRestart (fun _ => "") cfgOneDb engOneOrphanDb = Except.ok traceOneOrphanDb
    ∧ traceOneOrphanDb.length = 7
    ∧ ¬ (∀ i j : Fin 7,
        isDeclaredReconcileOp (traceOneOrphanDb.get (Fin.cast (by decide) i)) = true →
        isOrphanPruneOp cfgOneDb (traceOneOrphanDb.get (Fin.cast (by decide) j)) = true →
        (i : Nat) < (j : Nat)) := by
  refine ⟨by rfl, by decide, ?_⟩
  decide

/-- C1 witness: the amended ordering instantiated on the fixture cycle,
pruning at index 4, declared creation at index 5. -/
theorem c1_orphan_pruning_precedes_declared_witness :
    isOrphanPruneOp cfgOneDb (traceOneOrphanDb.get ⟨4, by decide⟩) = true
    ∧ isDeclaredReconcileOp (traceOneOrphanDb.get ⟨5, by decide⟩) = true
    ∧ (4 : Nat) < 5 :=
  ⟨by decide, by decide,
    c1_orphan_pruning_precedes_declared (fun _ => "") cfgOneDb engOneOrphanDb
      traceOneOrphanDb (by rfl) 4 5 (by decide) (by decide) (by decide) (by decide)⟩

/-! ### C2: destructive-recreation trigger -/

/-- C2 (amended): for a declared sync with an explicit table list that
exists in the engine and whose group tables were fetched, destructive
recreation (delete of sync and group followed by the creation path) is
triggered exactly when the comma-joined engine-reported list differs from
the comma-joined normalized (trimmed, sorted) desired list — a comparison
of the sorted lists as sequences, i.e. multisets for comma-free names, not
as sets; when the joined lists are equal the sync receives only the
non-destructive update of schema-strictness and conflict strategy. -/
theorem c2_recreation_iff_joined_lists_differ (eng : EngineView) (sync : Sync)
    (details rel : String) (cur : List String)
    (hd : eng.syncDetails sync.name = some details)
    (ht : sync.tables ≠ "")
    (hrel : (eng.relgroupFromDetails details).getD sync.name = rel)
    (hcur : eng.relgroupTables rel = some cur) :
    (joinComma cur ≠ joinComma (normalizeConfigTables sync.tables) →
      reconcileOneSync eng sync =
        Op.removeSyncAndRelgroup sync.name rel :: syncCreateOps sync
      ∧ Op.execBucardo (syncAddArgs sync) ∈ reconcileOneSync eng sync)
    ∧ (joinComma cur = joinComma (normalizeConfigTables sync.tables) →
      reconcileOneSync eng sync = [Op.execBucardo (syncUpdateArgs sync)]) := by
  have hops : reconcileOneSync eng sync =
      if joinComma cur ≠ joinComma (normalizeConfigTables sync.tables) then
        Op.removeSyncAndRelgroup sync.name rel :: syncCreateOps sync
      else [Op.execBucardo (syncUpdateArgs sync)] := by
    unfold reconcileOneSync
    rw [hd]
    dsimp only
    rw [if_pos ht, hrel, hcur]
    rfl
  constructor
  · intro hne
    rw [hops, if_pos hne]
    refine ⟨rfl, ?_⟩
    exact List.mem_cons.mpr (Or.inr (by
      unfold syncCreateOps
      exact List.mem_append.mpr (Or.inr (List.mem_singleton.mpr rfl))))
  · intro heq
    rw [hops, if_neg (by simpa using heq)]

/-- C2 counterexample: a desired list with a duplicated entry (t1,t1) and
an engine list [t1] denote the same table set, yet the cycle deletes and
recreates the sync, so set-equality of the normalized lists does not
prevent recreation. -/
theorem c2_recreation_counterexample :
    (normalizeConfigTables syncDupTables.tables).toFinset =
      (["t1"] : List String).toFinset
    ∧ engDupTables.relgroupTables "g" = some ["t1"]
    ∧ reconcileOneSync engDupTables syncDupTables =
        Op.removeSyncAndRelgroup "s" "g" :: syncCreateOps syncDupTables
    ∧ Op.removeSyncAndRelgroup "s" "g" ∈ reconcileOneSync engDupTables syncDupTables :=
  ⟨by decide, rfl, rfl, List.mem_cons.mpr (Or.inl rfl)⟩

/-- C2 witness: an unchanged table list (up to trimming and order) yields
exactly the single non-destructive update command. -/
theorem c2_recreation_iff_joined_lists_differ_witness :
    reconcileOneSync
      { dbs := [], syncs := ["w"],
        syncDetails := fun n => if n = "w" then some "wdetails" else none,
        relgroupFromDetails := fun _ => some "wg",
        relgroupTables := fun g => if g = "wg" then some ["a", "b"] else none }
      { name := "w", sources := [1], targets := [2], tables := "b, a" } =
      [Op.execBucardo (syncUpdateArgs
        { name := "w", sources := [1], targets := [2], tables := "b, a" })] :=
  (c2_recreation_iff_joined_lists_differ
      { dbs := [], syncs := ["w"],
        syncDetails := fun n => if n = "w" then some "wdetails" else none,
        relgroupFromDetails := fun _ => some "wg",
        relgroupTables := fun g => if g = "wg" then some ["a", "b"] else none }
      { name := "w", sources := [1], targets := [2], tables := "b, a" }
      "wdetails" "wg" ["a", "b"] rfl (by decide) rfl rfl).2 (by decide)

/-! ### C4: validation accumulates, and gates reconciliation -/

theorem validate_fold_mem_acc {dbIds : List Int} :
    ∀ (syncs : List Sync) (acc : List ValidationError × List String)
      (e : ValidationError), e ∈ acc.1 →
      e ∈ (syncs.foldl (fun acc sync =>
        (acc.1 ++ syncStepErrors dbIds acc.2 sync, syncSeenUpdate acc.2 sync)) acc).1 := by
  intro syncs
  induction syncs with
  | nil => intro acc e he; exact he
  | cons s rest ih =>
    intro acc e he
    exact ih _ e (List.mem_append.mpr (Or.inl he))

theorem validate_fold_mem_shape {dbIds : List Int} :
    ∀ (syncs : List Sync) (acc : List ValidationError × List String) (sync : Sync),
      sync ∈ syncs → sync.name ≠ "" →
      ∀ e ∈ syncShapeErrors dbIds sync,
      e ∈ (syncs.foldl (fun acc sync =>
        (acc.1 ++ syncStepErrors dbIds acc.2 sync, syncSeenUpdate acc.2 sync)) acc).1 := by
  intro syncs
  induction syncs with
  | nil => intro acc sync hs; exact absurd hs (List.not_mem_nil sync)
  | cons s rest ih =>
    intro acc sync hs hname e he
    rcases List.mem_cons.mp hs with rfl | hs
    · refine validate_fold_mem_acc rest _ e ?_
      refine List.mem_append.mpr (Or.inr ?_)
      unfold syncStepErrors
      rw [if_neg hname]
      exact List.mem_append.mpr (Or.inr he)
    · exact ih _ sync hs hname e he

theorem shape_has_bidirectional_errors {dbIds : List Int} {sync : Sync}
    (hbid : sync.bidirectional.length = 1)
    (hcs : sync.conflictStrategy = "bucardo_source" ∨
      sync.conflictStrategy = "bucardo_target") :
    ValidationError.bidirectionalTooFew sync.name ∈ syncShapeErrors dbIds sync
    ∧ ValidationError.staticStrategyForBidirectional sync.name sync.conflictStrategy
        ∈ syncShapeErrors dbIds sync := by
  have hne : ¬ sync.bidirectional.isEmpty := by
    cases hb : sync.bidirectional with
    | nil => rw [hb] at hbid; cases hbid
    | cons a t => simp
  unfold syncShapeErrors
  rw [if_pos hne, if_pos (by omega : sync.bidirectional.length < 2), if_pos hcs]
  constructor
  · exact List.mem_append.mpr (Or.inl (List.mem_append.mpr (Or.inl
      (List.mem_append.mpr (Or.inl (List.mem_append.mpr (Or.inl (List.mem_singleton.mpr rfl))))))))
  · exact List.mem_append.mpr (Or.inl (List.mem_append.mpr (Or.inr
      (List.mem_singleton.mpr rfl))))

/-- C4: a DesiredState containing a named bidirectional sync with exactly
one participant and one of the static-priority conflict strategies yields
at least the two distinct errors "bidirectional requires at least two
database IDs" and "invalid conflict_strategy for a bidirectional sync";
validation is a pure accumulating function, so both checks report, and any
ReloadAndRestart cycle over such a state is refused before the first
engine-mutating call. -/
theorem c4_bidirectional_static_two_errors (cfg : BucardoConfig) (sync : Sync)
    (hs : sync ∈ cfg.syncs) (hname : sync.name ≠ "")
    (hbid : sync.bidirectional.length = 1)
    (hcs : sync.conflictStrategy = "bucardo_source" ∨
      sync.conflictStrategy = "bucardo_target") :
    ValidationError.bidirectionalTooFew sync.name ∈ validateConfig cfg
    ∧ ValidationError.staticStrategyForBidirectional sync.name sync.conflictStrategy
        ∈ validateConfig cfg
    ∧ ValidationError.bidirectionalTooFew sync.name ≠
        ValidationError.staticStrategyForBidirectional sync.name sync.conflictStrategy
    ∧ validateConfig cfg ≠ []
    ∧ ∀ (env : String → String) (eng : EngineView),
        reloadAndRestart env cfg eng = .error "configuration validation failed" := by
  have hmem := @shape_has_bidirectional_errors
    (cfg.databases.foldl
      (fun (acc : List ValidationError × List Int) db =>
        (acc.1 ++ (if acc.2.contains db.id then [ValidationError.duplicateDbId db.id] else []),
         acc.2 ++ [db.id]))
      ([], [])).2 sync hbid hcs
  have h1 : ValidationError.bidirectionalTooFew sync.name ∈ validateConfig cfg :=
    validate_fold_mem_shape cfg.syncs _ sync hs hname _ hmem.1
  have h2 : ValidationError.staticStrategyForBidirectional sync.name sync.conflictStrategy
      ∈ validateConfig cfg :=
    validate_fold_mem_shape cfg.syncs _ sync hs hname _ hmem.2
  have hnonempty : validateConfig cfg ≠ [] := by
    intro hnil
    rw [hnil] at h1
    exact absurd h1 (List.not_mem_nil _)
  refine ⟨h1, h2, ?_, hnonempty, ?_⟩
  · intro h
    exact ValidationError.noConfusion h
  · intro env eng
    unfold reloadAndRestart
    rw [if_pos hnonempty]

/-- C4 witness: the two errors and the refused cycle on a concrete
one-participant bidirectional sync with strategy bucardo_source. -/
theorem c4_bidirectional_static_two_errors_witness :
    ValidationError.bidirectionalTooFew "b1" ∈ validateConfig
      { databases := [{ id := 1 }],
        syncs := [{ name := "b1", bidirectional := [1],
                    conflictStrategy := "bucardo_source" }] }
    ∧ ValidationError.staticStrategyForBidirectional "b1" "bucardo_source" ∈ validateConfig
      { databases := [{ id := 1 }],
        syncs := [{ name := "b1", bidirectional := [1],
                    conflictStrategy := "bucardo_source" }] }
    ∧ reloadAndRestart (fun _ => "")
      { databases := [{ id := 1 }],
        syncs := [{ name := "b1", bidirectional := [1],
                    conflictStrategy := "bucardo_source" }] }
      { dbs := [], syncs := [], syncDetails := fun _ => none,
        relgroupFromDetails := fun _ => none, relgroupTables := fun _ => none } =
      .error "configuration validation failed" := by
  have := c4_bidirectional_static_two_errors
    { databases := [{ id := 1 }],
      syncs := [{ name := "b1", bidirectional := [1],
                  conflictStrategy := "bucardo_source" }] }
    { name := "b1", bidirectional := [1], conflictStrategy := "bucardo_source" }
    (by decide) (by decide) (by decide) (Or.inl rfl)
  exact ⟨this.1, this.2.1, this.2.2.2.2 _ _⟩

/-! ### C8: env-indirect password resolution -/

/-- C8: a database whose pass field is the literal env resolves its
effective password from BUCARDO_DB followed by the database id, failing
when that variable is unset or empty (Go's os.Getenv conflates the two);
any other pass value is used unchanged; and for pass = env the resolved
password always comes from the environment, never from the pass field
itself, so env cannot be given as a literal password. -/
theorem c8_password_env_indirection (env : String → String) (db : Database) :
    (db.pass = "env" → env ("BUCARDO_DB" ++ toString db.id) ≠ "" →
      getDbPassword env db = .ok (env ("BUCARDO_DB" ++ toString db.id)))
    ∧ (db.pass = "env" → env ("BUCARDO_DB" ++ toString db.id) = "" →
      getDbPassword env db = .error ("environment variable " ++
        ("BUCARDO_DB" ++ toString db.id) ++ " not set for db id " ++ toString db.id))
    ∧ (db.pass ≠ "env" → getDbPassword env db = .ok db.pass)
    ∧ (db.pass = "env" → ∀ p, getDbPassword env db = .ok p →
      p = env ("BUCARDO_DB" ++ toString db.id)) := by
  refine ⟨?_, ?_, ?_, ?_⟩
  · intro hp hv
    unfold getDbPassword
    rw [if_pos hp, if_neg hv]
  · intro hp hv
    unfold getDbPassword
    rw [if_pos hp, if_pos hv]
  · intro hp
    unfold getDbPassword
    rw [if_neg hp]
  · intro hp p hok
    unfold getDbPassword at hok
    rw [if_pos hp] at hok
    by_cases hv : env ("BUCARDO_DB" ++ toString db.id) = ""
    · rw [if_pos hv] at hok
      cases hok
    · rw [if_neg hv] at hok
      cases hok
      rfl

/-- C8 witness: resolution through a set variable, failure on an empty one,
and literal passthrough, on concrete databases. -/
theorem c8_password_env_indirection_witness :
    getDbPassword (fun v => if v = "BUCARDO_DB7" then "sekret" else "")
      { id := 7, pass := "env" } = .ok "sekret"
    ∧ getDbPassword (fun v => if v = "BUCARDO_DB7" then "sekret" else "")
      { id := 2, pass := "env" } = .error ("environment variable " ++
        ("BUCARDO_DB" ++ toString (2 : Int)) ++ " not set for db id " ++ toString (2 : Int))
    ∧ getDbPassword (fun v => if v = "BUCARDO_DB7" then "sekret" else "")
      { id := 7, pass := "hunter2" } = .ok "hunter2" :=
  ⟨(c8_password_env_indirection (fun v => if v = "BUCARDO_DB7" then "sekret" else "")
      { id := 7, pass := "env" }).1 rfl (by decide),
   (c8_password_env_indirection (fun v => if v = "BUCARDO_DB7" then "sekret" else "")
      { id := 2, pass := "env" }).2.1 rfl (by decide),
   (c8_password_env_indirection (fun v => if v = "BUCARDO_DB7" then "sekret" else "")
      { id := 7, pass := "hunter2" }).2.2.1 (by decide)⟩

/-! ### C9: administrative sync operations preserve name uniqueness -/

theorem updateSyncsList_names {name : String} {updated : Sync} :
    ∀ {l l' : List Sync}, updateSyncsList name updated l = some l' →
      l'.map (fun s => s.name) = l.map (fun s => s.name) := by
  intro l
  induction l with
  | nil => intro l' h; cases h
  | cons s rest ih =>
    intro l' h
    unfold updateSyncsList at h
    by_cases hs : s.name == name
    · rw [if_pos hs] at h
      cases h
      simp only [List.map_cons]
      rw [eq_of_beq hs]
    · rw [if_neg hs] at h
      cases hrec : updateSyncsList name updated rest with
      | none => rw [hrec] at h; cases h
      | some l'' =>
        rw [hrec] at h
        cases h
        simp only [List.map_cons]
        rw [ih hrec]

theorem updateSyncsList_none {name : String} {updated : Sync} :
    ∀ {l : List Sync}, (∀ s ∈ l, s.name ≠ name) →
      updateSyncsList name updated l = none := by
  intro l
  induction l with
  | nil => intro; rfl
  | cons s rest ih =>
    intro hall
    unfold updateSyncsList
    rw [if_neg (by simpa using hall s (List.mem_cons_self s rest)),
      ih (fun x hx => hall x (List.mem_cons_of_mem s hx))]
    rfl

/-- C9: AddSync refuses a duplicate name with an error (the configuration
is saved only on success, so the stored state is unchanged); a successful
UpdateSync leaves the stored name sequence exactly as it was, because the
replacement sync's name is overwritten with the requested name, so an
update can neither rename nor duplicate; UpdateSync and DeleteSync fail
with an error when no sync has the requested name; and all three
operations preserve uniqueness of sync names on success. -/
theorem c9_admin_ops_preserve_name_uniqueness (cfg : BucardoConfig) (sync : Sync)
    (name : String) (updated : Sync) :
    ((∃ e ∈ cfg.syncs, e.name = sync.name) →
      AddSync cfg sync = .error ("sync already exists: " ++ sync.name))
    ∧ (∀ cfg', UpdateSync cfg name updated = .ok cfg' →
      cfg'.syncs.map (fun s => s.name) = cfg.syncs.map (fun s => s.name))
    ∧ ((∀ s ∈ cfg.syncs, s.name ≠ name) →
      UpdateSync cfg name updated = .error ("sync not found: " ++ name)
      ∧ DeleteSync cfg name = .error ("sync not found: " ++ name))
    ∧ ((cfg.syncs.map (fun s => s.name)).Nodup → ∀ cfg',
      (AddSync cfg sync = .ok cfg' ∨ UpdateSync cfg name updated = .ok cfg'
        ∨ DeleteSync cfg name = .ok cfg') →
      (cfg'.syncs.map (fun s => s.name)).Nodup) := by
  have hupd : ∀ cfg', UpdateSync cfg name updated = .ok cfg' →
      cfg'.syncs.map (fun s => s.name) = cfg.syncs.map (fun s => s.name) := by
    intro cfg' h
    unfold UpdateSync at h
    cases hu : updateSyncsList name updated cfg.syncs with
    | none => rw [hu] at h; cases h
    | some syncs' =>
      rw [hu] at h
      dsimp only at h
      unfold UpdateConfig at h
      by_cases hv : validateConfig { cfg with syncs := syncs' } ≠ []
      · rw [if_pos hv] at h; cases h
      · rw [if_neg hv] at h
        cases h
        exact updateSyncsList_names hu
  refine ⟨?_, hupd, ?_, ?_⟩
  · intro ⟨e, he, hename⟩
    unfold AddSync
    rw [if_pos ?_]
    exact List.any_eq_true.mpr ⟨e, he, by simp [hename]⟩
  · intro hnone
    constructor
    · unfold UpdateSync
      rw [updateSyncsList_none hnone]
    · unfold DeleteSync
      rw [if_neg ?_]
      intro hany
      rcases List.any_eq_true.mp hany with ⟨s, hsmem, hsname⟩
      exact hnone s hsmem (by simpa using hsname)
  · intro hnd cfg' hok
    rcases hok with hok | hok | hok
    · unfold AddSync at hok
      by_cases hany : cfg.syncs.any (fun e => e.name == sync.name)
      · rw [if_pos hany] at hok; cases hok
      · rw [if_neg hany] at hok
        unfold UpdateConfig at hok
        by_cases hv : validateConfig { cfg with syncs := cfg.syncs ++ [sync] } ≠ []
        · rw [if_pos hv] at hok; cases hok
        · rw [if_neg hv] at hok
          cases hok
          simp only [List.map_append, List.map_cons, List.map_nil]
          rw [List.nodup_append]
          refine ⟨hnd, List.nodup_singleton _, ?_⟩
          intro a ha hb
          rcases List.mem_singleton.mp hb with rfl
          rcases List.mem_map.mp ha with ⟨e, he, hename⟩
          exact hany (List.any_eq_true.mpr ⟨e, he, by simp [hename]⟩)
    · rw [hupd cfg' hok]
      exact hnd
    · unfold DeleteSync at hok
      by_cases hany : cfg.syncs.any (fun s => s.name == name)
      · rw [if_pos hany] at hok
        unfold UpdateConfig at hok
        by_cases hv : validateConfig
            { cfg with syncs := cfg.syncs.filter (fun s => ¬ s.name == name) } ≠ []
        · rw [if_pos hv] at hok; cases hok
        · rw [if_neg hv] at hok
          cases hok
          refine List.Nodup.sublist ?_ hnd
          exact List.Sublist.map _ (List.filter_sublist cfg.syncs)
      · rw [if_neg hany] at hok
        cases hok

/-- C9 witness: duplicate-add refusal, name-preserving update, not-found
errors, and uniqueness preservation on a concrete two-sync state. -/
theorem c9_admin_ops_preserve_name_uniqueness_witness :
    AddSync { syncs := [{ name := "a", sources := [1], targets := [2], tables := "t" }] }
        { name := "a" } = .error ("sync already exists: " ++ "a")
    ∧ (∀ s ∈ ({ syncs := [{ name := "a", sources := [1], targets := [2], tables := "t" }] :
          BucardoConfig }).syncs, s.name ≠ "zz")
    ∧ UpdateSync { syncs := [{ name := "a", sources := [1], targets := [2], tables := "t" }] }
        "zz" { name := "b" } = .error ("sync not found: " ++ "zz") :=
  ⟨(c9_admin_ops_preserve_name_uniqueness
      { syncs := [{ name := "a", sources := [1], targets := [2], tables := "t" }] }
      { name := "a" } "zz" { name := "b" }).1
      ⟨{ name := "a", sources := [1], targets := [2], tables := "t" }, by decide, rfl⟩,
   by decide,
   ((c9_admin_ops_preserve_name_uniqueness
      { syncs := [{ name := "a", sources := [1], targets := [2], tables := "t" }] }
      { name := "a" } "zz" { name := "b" }).2.2.1 (by decide)).1⟩

/-! ### C5: completion matching in the Watching state -/

theorem processLine_foldl_shape (line : String) (stopOk : String → Bool) :
    ∀ (l : List String) (rem : List String) (acts : List MonAct),
      l.foldl (fun (acc : List String × List MonAct) n =>
        if strContains line (kidTag n) then
          (acc.1.erase n, acc.2 ++ [MonAct.stopSync n (stopOk n)])
        else acc) (rem, acts)
      = ((l.filter (fun n => strContains line (kidTag n))).foldl (fun r n => r.erase n) rem,
         acts ++ (l.filter (fun n => strContains line (kidTag n))).map
           (fun n => MonAct.stopSync n (stopOk n))) := by
  intro l
  induction l with
  | nil => intro rem acts; simp
  | cons x t ih =>
    intro rem acts
    by_cases hp : strContains line (kidTag x)
    · have hf : List.filter (fun n => strContains line (kidTag n)) (x :: t) =
          x :: List.filter (fun n => strContains line (kidTag n)) t := by
        simp [List.filter_cons, hp]
      rw [List.foldl_cons, if_pos hp, ih, hf, List.foldl_cons, List.map_cons]
      simp
    · have hf : List.filter (fun n => strContains line (kidTag n)) (x :: t) =
          List.filter (fun n => strContains line (kidTag n)) t := by
        simp [List.filter_cons, hp]
      rw [List.foldl_cons, if_neg hp, hf]
      exact ih rem acts

theorem foldl_erase_comm :
    ∀ (xs : List String) (x : String) (rem : List String), (∀ n ∈ xs, n ≠ x) →
      xs.foldl (fun r n => r.erase n) (x :: rem) = x :: xs.foldl (fun r n => r.erase n) rem := by
  intro xs
  induction xs with
  | nil => intro x rem _; rfl
  | cons y ys ih =>
    intro x rem hall
    have hxy : x ≠ y := fun h => hall y (List.mem_cons_self y ys) h.symm
    simp only [List.foldl_cons]
    rw [List.erase_cons_tail (by simpa using hxy)]
    exact ih x (rem.erase y) (fun n hn => hall n (List.mem_cons_of_mem y hn))

theorem filter_foldl_erase_self (p : String → Bool) :
    ∀ l : List String,
      (l.filter p).foldl (fun r n => r.erase n) l = l.filter (fun n => ¬ p n) := by
  intro l
  induction l with
  | nil => rfl
  | cons x t ih =>
    by_cases hp : p x
    · rw [List.filter_cons_of_pos hp, List.filter_cons_of_neg (by simpa using hp)]
      simp only [List.foldl_cons, List.erase_cons_head]
      exact ih
    · rw [List.filter_cons_of_neg hp, List.filter_cons_of_pos (by simpa using hp)]
      rw [foldl_erase_comm _ x t ?_, ih]
      intro n hn h
      rcases List.mem_filter.mp hn with ⟨_, hpn⟩
      rw [h] at hpn
      exact absurd hpn (by simpa using hp)

theorem processLine_spec (stopOk : String → Bool) (pending : List String) (line : String)
    (hm : strContains line completionMarker = true) :
    processLine stopOk pending line =
      (pending.filter (fun n => ¬ strContains line (kidTag n)),
       (pending.filter (fun n => strContains line (kidTag n))).map
         (fun n => MonAct.stopSync n (stopOk n))) := by
  unfold processLine
  rw [if_pos hm, processLine_foldl_shape, filter_foldl_erase_self, List.nil_append]

/-- C5: on a log line carrying the normal-completion phrase, the Watching
state removes exactly the pending names whose bracketed KID tag occurs in
the line and issues one individual stop command per removed name; the
outcomes of those stop commands influence neither which names are removed
(so a failed stop removes no other entry) nor the continuation of
monitoring, which keeps watching whenever names remain pending. -/
theorem c5_completion_line_matching (stopOk stopOk2 : String → Bool)
    (pending : List String) (line : String)
    (hm : strContains line completionMarker = true) :
    processLine stopOk pending line =
      (pending.filter (fun n => ¬ strContains line (kidTag n)),
       (pending.filter (fun n => strContains line (kidTag n))).map
         (fun n => MonAct.stopSync n (stopOk n)))
    ∧ (processLine stopOk pending line).1 = (processLine stopOk2 pending line).1
    ∧ (∀ allRunOnce : Bool, (processLine stopOk pending line).1 ≠ [] →
        (monitorStep stopOk allRunOnce pending (.logLine line)).1 =
          .watching (processLine stopOk pending line).1) := by
  refine ⟨processLine_spec stopOk pending line hm, ?_, ?_⟩
  · rw [processLine_spec stopOk pending line hm, processLine_spec stopOk2 pending line hm]
  · intro allRunOnce hne
    unfold monitorStep
    dsimp only
    rw [if_neg (by simpa [List.isEmpty_iff] using hne)]

/-- C5 witness: a completion line for s1 with a failing stop command
removes only s1, records the failed stop, and monitoring keeps watching
s2. -/
theorem c5_completion_line_matching_witness :
    processLine (fun _ => false) ["s1", "s2"]
        "(123) [t] KID (s1) Reason: Normal exit" = (["s2"], [MonAct.stopSync "s1" false])
    ∧ (monitorStep (fun _ => false) true ["s1", "s2"]
        (.logLine "(123) [t] KID (s1) Reason: Normal exit")).1 = .watching ["s2"] := by
  have h := c5_completion_line_matching (fun _ => false) (fun _ => true)
    ["s1", "s2"] "(123) [t] KID (s1) Reason: Normal exit" (by decide)
  refine ⟨?_, ?_⟩
  · rw [h.1]
    decide
  · have h2 := h.2.2 true (by rw [h.1]; decide)
    rw [h2, h.1]
    decide

/-! ### C6: transition when the pending set empties -/

theorem length_filter_eq_iff {α : Type} (p : α → Bool) :
    ∀ l : List α, (l.filter p).length = l.length ↔ ∀ a ∈ l, p a := by
  intro l
  induction l with
  | nil => simp
  | cons x t ih =>
    by_cases hp : p x
    · rw [List.filter_cons_of_pos hp]
      simp only [List.length_cons, Nat.add_right_cancel_iff, List.mem_cons]
      rw [ih]
      constructor
      · intro hall a ha
        rcases ha with rfl | ha
        · exact hp
        · exact hall a ha
      · intro hall a ha
        exact hall a (Or.inr ha)
    · rw [List.filter_cons_of_neg hp]
      have hle := List.length_filter_le p t
      constructor
      · intro h
        exfalso
        rw [List.length_cons] at h
        omega
      · intro hall
        exact absurd (hall x (List.mem_cons_self x t)) (by simpa using hp)

theorem allRunOnce_iff {cfg : BucardoConfig}
    (hnd : (cfg.syncs.map (fun s => s.name)).Nodup) :
    allSyncsAreRunOnce cfg = true ↔
      ∀ s ∈ cfg.syncs, s.exitOnComplete = some true := by
  have hsub : List.Sublist ((cfg.syncs.filter (fun s => s.exitOnComplete = some true)).map
      (fun s => s.name)) (cfg.syncs.map (fun s => s.name)) :=
    (List.filter_sublist cfg.syncs).map _
  have hnd2 : ((cfg.syncs.filter (fun s => s.exitOnComplete = some true)).map
      (fun s => s.name)).Nodup := hnd.sublist hsub
  unfold allSyncsAreRunOnce runOnceNames
  rw [List.dedup_eq_self.mpr hnd2, List.length_map, beq_iff_eq]
  rw [eq_comm, length_filter_eq_iff]
  constructor
  · intro h s hs
    have := h s hs
    simpa using this
  · intro h s hs
    simp [h s hs]

/-- C6: once the pending run-once set empties on a received log line, the
monitor stops the whole engine and ends monitoring with a successful exit
status when every configured sync was run-once, and otherwise hands off to
steady-state supervision without stopping the engine, where the only
shutdown triggers are an OS signal or cancellation, never log content.
Name uniqueness (guaranteed by the validation that precedes monitoring)
ties the source's count comparison to the every-sync condition. -/
theorem c6_pending_empty_transition (cfg : BucardoConfig) (stopOk : String → Bool)
    (pending : List String) (line : String)
    (hnd : (cfg.syncs.map (fun s => s.name)).Nodup)
    (hempty : (processLine stopOk pending line).1 = []) :
    ((∀ s ∈ cfg.syncs, s.exitOnComplete = some true) →
      (monitorStep stopOk (allSyncsAreRunOnce cfg) pending (.logLine line)).1 =
        .stoppedAllComplete
      ∧ MonAct.stopEngine ∈
          (monitorStep stopOk (allSyncsAreRunOnce cfg) pending (.logLine line)).2
      ∧ monResultExitCode
          (monitorStep stopOk (allSyncsAreRunOnce cfg) pending (.logLine line)).1 = some 0)
    ∧ (¬ (∀ s ∈ cfg.syncs, s.exitOnComplete = some true) →
      (monitorStep stopOk (allSyncsAreRunOnce cfg) pending (.logLine line)).1 = .steadyState
      ∧ MonAct.stopEngine ∉
          (monitorStep stopOk (allSyncsAreRunOnce cfg) pending (.logLine line)).2
      ∧ ∀ e : SteadyEvent, monitorBucardoStep e = [MonAct.stopEngine]) := by
  have hacts : ∀ a ∈ (processLine stopOk pending line).2, a ≠ MonAct.stopEngine := by
    intro a ha
    unfold processLine at ha
    split at ha
    · rw [processLine_foldl_shape] at ha
      rcases List.mem_append.mp ha with ha | ha
      · exact absurd ha (List.not_mem_nil a)
      · rcases List.mem_map.mp ha with ⟨n, _, rfl⟩
        intro h
        cases h
    · exact absurd ha (List.not_mem_nil a)
  constructor
  · intro hall
    have haro : allSyncsAreRunOnce cfg = true := (allRunOnce_iff hnd).mpr hall
    unfold monitorStep
    dsimp only
    rw [if_pos (by simpa [List.isEmpty_iff] using hempty), haro, if_pos rfl]
    refine ⟨rfl, ?_, rfl⟩
    exact List.mem_append.mpr (Or.inr (List.mem_singleton.mpr rfl))
  · intro hnall
    have haro : allSyncsAreRunOnce cfg = false := by
      cases h : allSyncsAreRunOnce cfg
      · rfl
      · exact absurd ((allRunOnce_iff hnd).mp h) hnall
    unfold monitorStep
    dsimp only
    rw [if_pos (by simpa [List.isEmpty_iff] using hempty), haro]
    rw [if_neg (by simp)]
    refine ⟨rfl, ?_, fun e => rfl⟩
    intro hmem
    rcases List.mem_cons.mp hmem with h | h
    · cases h
    · exact hacts _ h rfl

/-- C6 witness: both transitions on a one-sync completion line, for an
all-run-once configuration and for a mixed one. -/
theorem c6_pending_empty_transition_witness :
    (monitorStep (fun _ => true)
      (allSyncsAreRunOnce { syncs := [{ name := "s1", exitOnComplete := some true }] })
      ["s1"] (.logLine "KID (s1) Reason: Normal exit")).1 = .stoppedAllComplete
    ∧ (monitorStep (fun _ => true)
      (allSyncsAreRunOnce { syncs := [{ name := "s1", exitOnComplete := some true },
        { name := "s2" }] })
      ["s1"] (.logLine "KID (s1) Reason: Normal exit")).1 = .steadyState := by
  constructor
  · exact ((c6_pending_empty_transition
      { syncs := [{ name := "s1", exitOnComplete := some true }] }
      (fun _ => true) ["s1"] "KID (s1) Reason: Normal exit"
      (by decide) (by decide)).1 (by decide)).1
  · exact ((c6_pending_empty_transition
      { syncs := [{ name := "s1", exitOnComplete := some true }, { name := "s2" }] }
      (fun _ => true) ["s1"] "KID (s1) Reason: Normal exit"
      (by decide) (by decide)).2 (by decide)).1

/-! ### C7: deadline behaviour and the maximum-timeout computation -/

theorem timeout_fold_of_all_none :
    ∀ (l : List Sync) (acc : Option Int),
      (∀ s ∈ l, s.exitOnComplete = some true → s.exitOnCompleteTimeout = none) →
      l.foldl (fun acc s =>
        if s.exitOnComplete = some true then
          match s.exitOnCompleteTimeout, acc with
          | some t, none => some t
          | some t, some m => if t > m then some t else some m
          | none, _ => acc
        else acc) acc = acc := by
  intro l
  induction l with
  | nil => intro acc _; rfl
  | cons s rest ih =>
    intro acc hall
    rw [List.foldl_cons]
    have hstep : (if s.exitOnComplete = some true then
        match s.exitOnCompleteTimeout, acc with
        | some t, none => some t
        | some t, some m => if t > m then some t else some m
        | none, _ => acc
      else acc) = acc := by
      by_cases he : s.exitOnComplete = some true
      · rw [if_pos he, hall s (List.mem_cons_self s rest) he]
      · rw [if_neg he]
    rw [hstep]
    exact ih acc (fun x hx => hall x (List.mem_cons_of_mem s hx))

theorem timeout_fold_some :
    ∀ (l : List Sync) (acc : Option Int) (t : Int),
      l.foldl (fun acc s =>
        if s.exitOnComplete = some true then
          match s.exitOnCompleteTimeout, acc with
          | some t, none => some t
          | some t, some m => if t > m then some t else some m
          | none, _ => acc
        else acc) acc = some t →
      ((acc = some t ∨ ∃ s ∈ l, s.exitOnComplete = some true
          ∧ s.exitOnCompleteTimeout = some t)
        ∧ (∀ u, acc = some u → u ≤ t)
        ∧ (∀ s ∈ l, s.exitOnComplete = some true →
            ∀ u, s.exitOnCompleteTimeout = some u → u ≤ t)) := by
  intro l
  induction l with
  | nil =>
    intro acc t h
    refine ⟨Or.inl h, ?_, ?_⟩
    · intro u hu
      rw [hu] at h
      cases h
      exact le_rfl
    · intro s hs
      exact absurd hs (List.not_mem_nil s)
  | cons s rest ih =>
    intro acc t h
    rw [List.foldl_cons] at h
    rcases ih _ t h with ⟨hwit, hbound, hall⟩
    by_cases he : s.exitOnComplete = some true
    · rw [if_pos he] at hwit hbound
      cases hto : s.exitOnCompleteTimeout with
      | none =>
        rw [hto] at hwit hbound
        dsimp only at hwit hbound
        refine ⟨?_, hbound, ?_⟩
        · rcases hwit with hw | ⟨x, hx, h1, h2⟩
          · exact Or.inl hw
          · exact Or.inr ⟨x, List.mem_cons_of_mem s hx, h1, h2⟩
        · intro x hx hex u hu
          rcases List.mem_cons.mp hx with rfl | hx
          · rw [hu] at hto; cases hto
          · exact hall x hx hex u hu
      | some t0 =>
        rw [hto] at hwit hbound
        cases hacc : acc with
        | none =>
          rw [hacc] at hwit hbound
          dsimp only at hwit hbound
          have ht0 : t0 ≤ t := by
            rcases hwit with hw | _
            · cases hw; exact le_refl t
            · exact hbound t0 rfl
          refine ⟨?_, ?_, ?_⟩
          · rcases hwit with hw | ⟨x, hx, h1, h2⟩
            · cases hw
              exact Or.inr ⟨s, List.mem_cons_self s rest, he, hto⟩
            · exact Or.inr ⟨x, List.mem_cons_of_mem s hx, h1, h2⟩
          · intro u hu; cases hu
          · intro x hx hex u hu
            rcases List.mem_cons.mp hx with rfl | hx
            · rw [hu] at hto; cases hto
              exact ht0
            · exact hall x hx hex u hu
        | some m =>
          rw [hacc] at hwit hbound
          dsimp only at hwit hbound
          by_cases hgt : t0 > m
          · rw [if_pos hgt] at hwit hbound
            have ht0 : t0 ≤ t := hbound t0 rfl
            refine ⟨?_, ?_, ?_⟩
            · rcases hwit with hw | ⟨x, hx, h1, h2⟩
              · cases hw
                exact Or.inr ⟨s, List.mem_cons_self s rest, he, hto⟩
              · exact Or.inr ⟨x, List.mem_cons_of_mem s hx, h1, h2⟩
            · intro u hu
              cases hu
              omega
            · intro x hx hex u hu
              rcases List.mem_cons.mp hx with rfl | hx
              · rw [hu] at hto; cases hto
                exact ht0
              · exact hall x hx hex u hu
          · rw [if_neg hgt] at hwit hbound
            have hm : m ≤ t := hbound m rfl
            refine ⟨?_, ?_, ?_⟩
            · rcases hwit with hw | ⟨x, hx, h1, h2⟩
              · exact Or.inl hw
              · exact Or.inr ⟨x, List.mem_cons_of_mem s hx, h1, h2⟩
            · intro u hu
              cases hu
              exact hm
            · intro x hx hex u hu
              rcases List.mem_cons.mp hx with rfl | hx
              · rw [hu] at hto; cases hto
                omega
              · exact hall x hx hex u hu
    · rw [if_neg he] at hwit hbound
      refine ⟨?_, hbound, ?_⟩
      · rcases hwit with hw | ⟨x, hx, h1, h2⟩
        · exact Or.inl hw
        · exact Or.inr ⟨x, List.mem_cons_of_mem s hx, h1, h2⟩
      · intro x hx hex u hu
        rcases List.mem_cons.mp hx with rfl | hx
        · exact absurd hex he
        · exact hall x hx hex u hu

/-- C7: the deadline firing in the Watching state stops the engine and the
process exits with status 1 (os.Exit(1) after the stop callback); the
deadline is armed from the maximum of the timeouts configured on run-once
syncs: when no run-once sync specifies a timeout the maximum is absent and
the timer is never armed, and whenever a maximum exists it is a configured
run-once timeout at least as large as every other configured run-once
timeout. -/
theorem c7_timeout_deadline (cfg : BucardoConfig) (stopOk : String → Bool)
    (allRunOnce : Bool) (pending : List String) :
    monitorStep stopOk allRunOnce pending .deadline = (.timedOut, [MonAct.stopEngine])
    ∧ monResultExitCode .timedOut = some 1
    ∧ ((∀ s ∈ cfg.syncs, s.exitOnComplete = some true →
          s.exitOnCompleteTimeout = none) →
        computeMaxTimeout cfg = none ∧ timerArmed (computeMaxTimeout cfg) = false)
    ∧ (∀ t, computeMaxTimeout cfg = some t →
        (∃ s ∈ cfg.syncs, s.exitOnComplete = some true
          ∧ s.exitOnCompleteTimeout = some t)
        ∧ ∀ s ∈ cfg.syncs, s.exitOnComplete = some true →
            ∀ u, s.exitOnCompleteTimeout = some u → u ≤ t) := by
  refine ⟨rfl, rfl, ?_, ?_⟩
  · intro hall
    have hnone : computeMaxTimeout cfg = none := by
      unfold computeMaxTimeout
      exact timeout_fold_of_all_none cfg.syncs none hall
    exact ⟨hnone, by rw [hnone]; rfl⟩
  · intro t ht
    unfold computeMaxTimeout at ht
    rcases timeout_fold_some cfg.syncs none t ht with ⟨hwit, _, hall⟩
    refine ⟨?_, hall⟩
    rcases hwit with hw | hw
    · cases hw
    · exact hw

/-- C7 witness: the deadline transition and the maximum (60) of two
configured run-once timeouts (30 and 60), with a bound check on both. -/
theorem c7_timeout_deadline_witness :
    monitorStep (fun _ => true) true ["s1"] .deadline = (.timedOut, [MonAct.stopEngine])
    ∧ computeMaxTimeout { syncs :=
        [{ name := "a", exitOnComplete := some true, exitOnCompleteTimeout := some 30 },
         { name := "b", exitOnComplete := some true, exitOnCompleteTimeout := some 60 }] } =
        some 60
    ∧ (∃ s ∈ ({ syncs :=
        [{ name := "a", exitOnComplete := some true, exitOnCompleteTimeout := some 30 },
         { name := "b", exitOnComplete := some true, exitOnCompleteTimeout := some 60 }] } :
          BucardoConfig).syncs,
        s.exitOnComplete = some true ∧ s.exitOnCompleteTimeout = some 60) := by
  refine ⟨(c7_timeout_deadline { syncs := [] } (fun _ => true) true ["s1"]).1, by decide, ?_⟩
  exact ((c7_timeout_deadline { syncs :=
      [{ name := "a", exitOnComplete := some true, exitOnCompleteTimeout := some 30 },
       { name := "b", exitOnComplete := some true, exitOnCompleteTimeout := some 60 }] }
    (fun _ => true) true ["s1"]).2.2.2 60 (by decide)).1

/-! ### C10: password redaction as a non-interference property -/

theorem isPrefixOf_append_indep :
    ∀ (l a x y : List Char), l.length ≤ a.length →
      l.isPrefixOf (a ++ x) = l.isPrefixOf (a ++ y) := by
  intro l
  induction l with
  | nil => intro a x y _; simp [List.isPrefixOf]
  | cons c lt ih =>
    intro a x y hlen
    cases a with
    | nil => simp at hlen
    | cons ah at' =>
      simp only [List.cons_append, List.isPrefixOf, List.append_eq]
      rw [ih at' x y (by simpa using hlen)]

theorem headD_append_of_ne_nil {y : List Char} (x : List Char) (d : Char)
    (hy : y ≠ []) : (y ++ x).headD d = y.headD d := by
  cases y with
  | nil => exact absurd rfl hy
  | cons a t => rfl

theorem dropWhile_nonspace_append {v suf : List Char}
    (hv : ∀ c ∈ v, c ≠ ' ') (hs : suf.headD ' ' = ' ') :
    (v ++ suf).dropWhile (fun x => x ≠ ' ') = suf := by
  rw [List.dropWhile_append]
  have hvnil : v.dropWhile (fun x => x ≠ ' ') = [] :=
    List.dropWhile_eq_nil_iff.mpr (fun x hx => by simpa using hv x hx)
  rw [hvnil]
  simp only [List.isEmpty_nil, if_true]
  cases suf with
  | nil => rfl
  | cons a t =>
    have ha : a = ' ' := by simpa using hs
    rw [List.dropWhile_cons, if_neg (by simp [ha])]

theorem passMatchAt_shape {l : List Char} (h : passMatchAt l = true) :
    6 ≤ l.length ∧
    ((l.drop 5).dropWhile (fun x => x ≠ ' ')).length + 6 ≤ l.length := by
  unfold passMatchAt at h
  rcases Bool.and_eq_true_iff.mp h with ⟨hpre, hhead⟩
  have hlen5 : 5 ≤ l.length := by
    have := (List.isPrefixOf_iff_prefix.mp hpre).length_le
    simpa using this
  cases hd : l.drop 5 with
  | nil =>
    rw [hd] at hhead
    simp at hhead
  | cons d t =>
    rw [hd] at hhead
    have hdne : d ≠ ' ' := by simpa using hhead
    have hdl : (l.drop 5).length = l.length - 5 := List.length_drop 5 l
    rw [hd] at hdl
    have hlen6 : 6 ≤ l.length := by
      simp only [List.length_cons] at hdl
      omega
    refine ⟨hlen6, ?_⟩
    have hdw : List.dropWhile (fun x => decide (x ≠ ' ')) (d :: t) =
        List.dropWhile (fun x => decide (x ≠ ' ')) t := by
      rw [List.dropWhile_cons, if_pos (by simpa using hdne)]
    rw [hdw]
    have := (@List.dropWhile_sublist Char t (fun x => decide (x ≠ ' '))).length_le
    simp only [List.length_cons] at hdl
    omega

theorem redactCharsFuel_congr :
    ∀ (n : Nat) (l : List Char) (f1 f2 : Nat), l.length ≤ n →
      l.length ≤ f1 → l.length ≤ f2 →
      redactCharsFuel f1 l = redactCharsFuel f2 l := by
  intro n
  induction n using Nat.strong_induction_on with
  | _ n ih =>
  intro l f1 f2 hn hf1 hf2
  cases l with
  | nil =>
    cases f1 <;> cases f2 <;> rfl
  | cons c rest =>
    simp only [List.length_cons] at hn hf1 hf2
    cases f1 with
    | zero => omega
    | succ f1' =>
      cases f2 with
      | zero => omega
      | succ f2' =>
        by_cases hp : passMatchAt (c :: rest)
        · simp only [redactCharsFuel, if_pos hp]
          rcases passMatchAt_shape hp with ⟨_, hlen⟩
          simp only [List.length_cons] at hlen
          congr 1
          exact ih (n - 1) (by omega) _ f1' f2' (by omega) (by omega) (by omega)
        · simp only [redactCharsFuel, if_neg hp]
          congr 1
          exact ih (n - 1) (by omega) rest f1' f2' (by omega) (by omega) (by omega)

theorem redact_pass_token :
    ∀ (f : Nat) (v : List Char), v ≠ [] → (∀ c ∈ v, c ≠ ' ') →
      5 + v.length ≤ f →
      redactCharsFuel f ("pass=".data ++ v) = "pass=*****".data := by
  intro f v hv hvn hf
  cases v with
  | nil => exact absurd rfl hv
  | cons d t =>
    cases f with
    | zero => simp at hf
    | succ f' =>
      have hp : passMatchAt ("pass=".data ++ (d :: t)) = true := by
        unfold passMatchAt
        rw [Bool.and_eq_true_iff]
        constructor
        · exact List.isPrefixOf_iff_prefix.mpr ⟨d :: t, rfl⟩
        · have hdrop : ("pass=".data ++ (d :: t)).drop 5 = d :: t :=
            List.drop_left "pass=".data (d :: t)
          rw [hdrop]
          simpa using hvn d (List.mem_cons_self d t)
      have hcons : "pass=".data ++ (d :: t) = 'p' :: ("ass=".data ++ (d :: t)) := rfl
      rw [hcons]
      simp only [redactCharsFuel]
      rw [← hcons, if_pos hp]
      have hdrop : ("pass=".data ++ (d :: t)).drop 5 = d :: t :=
        List.drop_left "pass=".data (d :: t)
      rw [hdrop]
      have hnil : List.dropWhile (fun x => decide (x ≠ ' ')) (d :: t) = [] :=
        List.dropWhile_eq_nil_iff.mpr (fun x hx => by simpa using hvn x hx)
      rw [hnil]
      cases f' <;> simp [redactCharsFuel]

theorem redactCharsFuel_pos {l : List Char} {f : Nat}
    (hp : passMatchAt l = true) (hf : l.length ≤ f) (hne : l ≠ []) :
    redactCharsFuel f l =
      "pass=*****".data ++
        redactCharsFuel (f - 1) ((l.drop 5).dropWhile (fun x => x ≠ ' ')) := by
  cases l with
  | nil => exact absurd rfl hne
  | cons c rest =>
    cases f with
    | zero => simp at hf
    | succ f' =>
      simp only [redactCharsFuel, if_pos hp, Nat.add_sub_cancel]

theorem redactCharsFuel_neg {c : Char} {rest : List Char} {f : Nat}
    (hp : passMatchAt (c :: rest) = false) :
    redactCharsFuel (f + 1) (c :: rest) = c :: redactCharsFuel f rest := by
  simp only [redactCharsFuel, hp, Bool.false_eq_true, if_false]

theorem pass_chars_nonspace : ∀ c ∈ "pass=".data, c ≠ ' ' := by decide

theorem post_match_remainder (pre : List Char) :
    ((pre ++ "pass=".data).drop 5).dropWhile (fun x => decide (x ≠ ' ')) = []
    ∨ ∃ pre'', ((pre ++ "pass=".data).drop 5).dropWhile (fun x => decide (x ≠ ' ')) =
        pre'' ++ "pass=".data ∧ pre''.length + 5 ≤ pre.length := by
  by_cases hlen : 5 ≤ pre.length
  · have hb : (pre ++ "pass=".data).drop 5 = pre.drop 5 ++ "pass=".data :=
      List.drop_append_of_le_length hlen
    rw [hb, List.dropWhile_append]
    by_cases he : (List.dropWhile (fun x => decide (x ≠ ' ')) (pre.drop 5)).isEmpty
    · rw [if_pos he]
      left
      exact List.dropWhile_eq_nil_iff.mpr
        (fun x hx => by simpa using pass_chars_nonspace x hx)
    · rw [if_neg he]
      right
      refine ⟨List.dropWhile (fun x => decide (x ≠ ' ')) (pre.drop 5), rfl, ?_⟩
      have h1 := (@List.dropWhile_sublist Char (pre.drop 5)
        (fun x => decide (x ≠ ' '))).length_le
      have h2 : (pre.drop 5).length = pre.length - 5 := List.length_drop 5 pre
      omega
  · left
    have hb : (pre ++ "pass=".data).drop 5 = "pass=".data.drop (5 - pre.length) := by
      have h5 : 5 = pre.length + (5 - pre.length) := by omega
      rw [h5, List.drop_append]
      congr 1
      omega
    rw [hb]
    refine List.dropWhile_eq_nil_iff.mpr (fun x hx => ?_)
    have : x ∈ "pass=".data := (List.drop_sublist _ _).mem hx
    simpa using pass_chars_nonspace x this

theorem redact_core :
    ∀ (n : Nat) (pre v1 v2 suf : List Char) (f1 f2 : Nat),
      pre.length ≤ n →
      v1 ≠ [] → v2 ≠ [] →
      (∀ c ∈ v1, c ≠ ' ') → (∀ c ∈ v2, c ≠ ' ') →
      suf.headD ' ' = ' ' →
      (pre ++ "pass=".data ++ v1 ++ suf).length ≤ f1 →
      (pre ++ "pass=".data ++ v2 ++ suf).length ≤ f2 →
      redactCharsFuel f1 (pre ++ "pass=".data ++ v1 ++ suf) =
        redactCharsFuel f2 (pre ++ "pass=".data ++ v2 ++ suf) := by
  intro n
  induction n using Nat.strong_induction_on with
  | _ n ih =>
  intro pre v1 v2 suf f1 f2 hpn h1 h2 hn1 hn2 hs hf1 hf2
  have hlen1 : (pre ++ "pass=".data ++ v1 ++ suf).length =
      pre.length + 5 + v1.length + suf.length := by
    simp [List.length_append]
    omega
  have hlen2 : (pre ++ "pass=".data ++ v2 ++ suf).length =
      pre.length + 5 + v2.length + suf.length := by
    simp [List.length_append]
    omega
  have ha1 : pre.length + 5 + v1.length + suf.length ≤ f1 := hlen1 ▸ hf1
  have ha2 : pre.length + 5 + v2.length + suf.length ≤ f2 := hlen2 ▸ hf2
  have hv1pos : 1 ≤ v1.length := by
    cases v1 with
    | nil => exact absurd rfl h1
    | cons a t => simp
  have hv2pos : 1 ≤ v2.length := by
    cases v2 with
    | nil => exact absurd rfl h2
    | cons a t => simp
  cases pre with
  | nil =>
    simp only [List.length_nil] at ha1 ha2
    have hd1 : ([] ++ "pass=".data ++ v1 ++ suf).drop 5 = v1 ++ suf := by
      have he : [] ++ "pass=".data ++ v1 ++ suf = "pass=".data ++ (v1 ++ suf) := by
        simp [List.append_assoc]
      rw [he]
      exact List.drop_left "pass=".data (v1 ++ suf)
    have hd2 : ([] ++ "pass=".data ++ v2 ++ suf).drop 5 = v2 ++ suf := by
      have he : [] ++ "pass=".data ++ v2 ++ suf = "pass=".data ++ (v2 ++ suf) := by
        simp [List.append_assoc]
      rw [he]
      exact List.drop_left "pass=".data (v2 ++ suf)
    have hm1 : passMatchAt ([] ++ "pass=".data ++ v1 ++ suf) = true := by
      unfold passMatchAt
      rw [Bool.and_eq_true_iff]
      constructor
      · refine List.isPrefixOf_iff_prefix.mpr ⟨v1 ++ suf, ?_⟩
        simp [List.append_assoc]
      · rw [hd1, headD_append_of_ne_nil suf ' ' h1]
        cases v1 with
        | nil => exact absurd rfl h1
        | cons a t => simpa using hn1 a (List.mem_cons_self a t)
    have hm2 : passMatchAt ([] ++ "pass=".data ++ v2 ++ suf) = true := by
      unfold passMatchAt
      rw [Bool.and_eq_true_iff]
      constructor
      · refine List.isPrefixOf_iff_prefix.mpr ⟨v2 ++ suf, ?_⟩
        simp [List.append_assoc]
      · rw [hd2, headD_append_of_ne_nil suf ' ' h2]
        cases v2 with
        | nil => exact absurd rfl h2
        | cons a t => simpa using hn2 a (List.mem_cons_self a t)
    rw [redactCharsFuel_pos hm1 hf1 (by simp), redactCharsFuel_pos hm2 hf2 (by simp)]
    congr 1
    rw [hd1, hd2, dropWhile_nonspace_append hn1 hs, dropWhile_nonspace_append hn2 hs]
    exact redactCharsFuel_congr suf.length suf (f1 - 1) (f2 - 1) le_rfl
      (by omega) (by omega)
  | cons c pre' =>
    simp only [List.length_cons] at ha1 ha2 hpn
    have hassoc1 : (c :: pre') ++ "pass=".data ++ v1 ++ suf =
        ((c :: pre') ++ "pass=".data) ++ (v1 ++ suf) := by
      simp [List.append_assoc]
    have hassoc2 : (c :: pre') ++ "pass=".data ++ v2 ++ suf =
        ((c :: pre') ++ "pass=".data) ++ (v2 ++ suf) := by
      simp [List.append_assoc]
    have hblen : 5 ≤ ((c :: pre') ++ "pass=".data).length := by
      simp [List.length_append]
    have hbne : (((c :: pre') ++ "pass=".data).drop 5) ≠ [] := by
      intro hnil
      have := congrArg List.length hnil
      simp [List.length_drop, List.length_append] at this
    have hdropeq1 : ((c :: pre') ++ "pass=".data ++ v1 ++ suf).drop 5 =
        (((c :: pre') ++ "pass=".data).drop 5) ++ (v1 ++ suf) := by
      rw [hassoc1]
      exact List.drop_append_of_le_length hblen
    have hdropeq2 : ((c :: pre') ++ "pass=".data ++ v2 ++ suf).drop 5 =
        (((c :: pre') ++ "pass=".data).drop 5) ++ (v2 ++ suf) := by
      rw [hassoc2]
      exact List.drop_append_of_le_length hblen
    have hpe : passMatchAt ((c :: pre') ++ "pass=".data ++ v1 ++ suf) =
        passMatchAt ((c :: pre') ++ "pass=".data ++ v2 ++ suf) := by
      unfold passMatchAt
      have hA : "pass=".data.isPrefixOf ((c :: pre') ++ "pass=".data ++ v1 ++ suf) =
          "pass=".data.isPrefixOf ((c :: pre') ++ "pass=".data ++ v2 ++ suf) := by
        rw [hassoc1, hassoc2]
        exact isPrefixOf_append_indep _ _ _ _ (by simpa using hblen)
      have hB : (((c :: pre') ++ "pass=".data ++ v1 ++ suf).drop 5).headD ' ' =
          (((c :: pre') ++ "pass=".data ++ v2 ++ suf).drop 5).headD ' ' := by
        rw [hdropeq1, hdropeq2, headD_append_of_ne_nil _ ' ' hbne,
          headD_append_of_ne_nil _ ' ' hbne]
      rw [hA, hB]
    by_cases hp : passMatchAt ((c :: pre') ++ "pass=".data ++ v1 ++ suf) = true
    · have hp2 : passMatchAt ((c :: pre') ++ "pass=".data ++ v2 ++ suf) = true := by
        rw [← hpe]
        exact hp
      rw [redactCharsFuel_pos hp hf1 (by simp), redactCharsFuel_pos hp2 hf2 (by simp)]
      congr 1
      rw [hdropeq1, hdropeq2]
      rcases post_match_remainder (c :: pre') with hrem | ⟨pre'', hrem, hplen⟩
      · have hball : ∀ x ∈ (((c :: pre') ++ "pass=".data).drop 5), x ≠ ' ' := by
          intro x hx
          have := List.dropWhile_eq_nil_iff.mp hrem x hx
          simpa using this
        have hT1 : List.dropWhile (fun x => decide (x ≠ ' '))
            ((((c :: pre') ++ "pass=".data).drop 5) ++ (v1 ++ suf)) = suf := by
          rw [← List.append_assoc]
          refine dropWhile_nonspace_append ?_ hs
          intro x hx
          rcases List.mem_append.mp hx with hx | hx
          · exact hball x hx
          · exact hn1 x hx
        have hT2 : List.dropWhile (fun x => decide (x ≠ ' '))
            ((((c :: pre') ++ "pass=".data).drop 5) ++ (v2 ++ suf)) = suf := by
          rw [← List.append_assoc]
          refine dropWhile_nonspace_append ?_ hs
          intro x hx
          rcases List.mem_append.mp hx with hx | hx
          · exact hball x hx
          · exact hn2 x hx
        rw [hT1, hT2]
        exact redactCharsFuel_congr suf.length suf (f1 - 1) (f2 - 1) le_rfl
          (by omega) (by omega)
      · have hne2 : ¬ (List.dropWhile (fun x => decide (x ≠ ' '))
            (((c :: pre') ++ "pass=".data).drop 5)).isEmpty = true := by
          rw [hrem]
          simp
        have hT1 : List.dropWhile (fun x => decide (x ≠ ' '))
            ((((c :: pre') ++ "pass=".data).drop 5) ++ (v1 ++ suf)) =
            pre'' ++ "pass=".data ++ v1 ++ suf := by
          rw [List.dropWhile_append, if_neg hne2, hrem]
          simp [List.append_assoc]
        have hT2 : List.dropWhile (fun x => decide (x ≠ ' '))
            ((((c :: pre') ++ "pass=".data).drop 5) ++ (v2 ++ suf)) =
            pre'' ++ "pass=".data ++ v2 ++ suf := by
          rw [List.dropWhile_append, if_neg hne2, hrem]
          simp [List.append_assoc]
        rw [hT1, hT2]
        have hself1 : (pre'' ++ "pass=".data ++ v1 ++ suf).length =
            pre''.length + 5 + v1.length + suf.length := by
          simp [List.length_append]
          omega
        have hself2 : (pre'' ++ "pass=".data ++ v2 ++ suf).length =
            pre''.length + 5 + v2.length + suf.length := by
          simp [List.length_append]
          omega
        simp only [List.length_cons] at hplen
        refine ih (n - 1) (by omega) pre'' v1 v2 suf (f1 - 1) (f2 - 1)
          (by omega) h1 h2 hn1 hn2 hs ?_ ?_
        · rw [hself1]
          omega
        · rw [hself2]
          omega
    · have hp1 : passMatchAt ((c :: pre') ++ "pass=".data ++ v1 ++ suf) = false := by
        simpa using hp
      have hp2 : passMatchAt ((c :: pre') ++ "pass=".data ++ v2 ++ suf) = false := by
        rw [← hpe]
        exact hp1
      have hcons1 : (c :: pre') ++ "pass=".data ++ v1 ++ suf =
          c :: (pre' ++ "pass=".data ++ v1 ++ suf) := by
        simp [List.cons_append]
      have hcons2 : (c :: pre') ++ "pass=".data ++ v2 ++ suf =
          c :: (pre' ++ "pass=".data ++ v2 ++ suf) := by
        simp [List.cons_append]
      cases f1 with
      | zero => omega
      | succ f1' =>
        cases f2 with
        | zero => omega
        | succ f2' =>
          rw [hcons1, hcons2, redactCharsFuel_neg (hcons1 ▸ hp1),
            redactCharsFuel_neg (hcons2 ▸ hp2)]
          congr 1
          have hq1 : (pre' ++ "pass=".data ++ v1 ++ suf).length =
              pre'.length + 5 + v1.length + suf.length := by
            simp [List.length_append]
            omega
          have hq2 : (pre' ++ "pass=".data ++ v2 ++ suf).length =
              pre'.length + 5 + v2.length + suf.length := by
            simp [List.length_append]
            omega
          refine ih (n - 1) (by omega) pre' v1 v2 suf f1' f2'
            (by omega) h1 h2 hn1 hn2 hs ?_ ?_
          · rw [hq1]
            omega
          · rw [hq2]
            omega

/-- C10: every command string is logged only after redactPassword (the
logged text of runCommand is redactPassword of the command), a pass=
token's value is replaced by pass=*****, and consequently two commands
that differ only in the non-empty, space-free password value following
pass= produce identical logged text: the log output does not depend on the
password. -/
theorem c10_redaction_hides_password (pre v1 v2 suf : String)
    (h1 : v1.data ≠ []) (h2 : v2.data ≠ [])
    (hn1 : ∀ c ∈ v1.data, c ≠ ' ') (hn2 : ∀ c ∈ v2.data, c ≠ ' ')
    (hs : suf.data.headD ' ' = ' ') :
    runCommandLoggedText (pre ++ "pass=" ++ v1 ++ suf) =
      runCommandLoggedText (pre ++ "pass=" ++ v2 ++ suf)
    ∧ runCommandLoggedText ("pass=" ++ v1) = "pass=*****" := by
  constructor
  · unfold runCommandLoggedText redactPassword
    have hdata1 : (pre ++ "pass=" ++ v1 ++ suf).data =
        pre.data ++ "pass=".data ++ v1.data ++ suf.data := by
      simp only [String.data_append]
    have hdata2 : (pre ++ "pass=" ++ v2 ++ suf).data =
        pre.data ++ "pass=".data ++ v2.data ++ suf.data := by
      simp only [String.data_append]
    rw [hdata1, hdata2]
    exact congrArg String.mk
      (redact_core pre.data.length pre.data v1.data v2.data suf.data _ _
        le_rfl h1 h2 hn1 hn2 hs le_rfl le_rfl)
  · unfold runCommandLoggedText redactPassword
    have hdata : ("pass=" ++ v1).data = "pass=".data ++ v1.data := by
      simp only [String.data_append]
    rw [hdata]
    rw [redact_pass_token _ v1.data h1 hn1 (by simp [List.length_append]; omega)]

/-- C10 witness: two add db commands differing only in the password log
identically, and a lone pass= token is starred out. -/
theorem c10_redaction_hides_password_witness :
    runCommandLoggedText ("add db db1 dbname=x " ++ "pass=" ++ "secret1" ++ " port=5432") =
      runCommandLoggedText ("add db db1 dbname=x " ++ "pass=" ++ "hunter2" ++ " port=5432")
    ∧ runCommandLoggedText ("pass=" ++ "secret1") = "pass=*****" :=
  c10_redaction_hides_password "add db db1 dbname=x " "secret1" "hunter2" " port=5432"
    (by decide) (by decide) (by decide) (by decide) (by decide)

end BucardoDocker
